import Mathlib

/-!
Threshold dispatcher of raptor.

A shallow embedding of `raptor::threshold::threshold`
(`include/raptor/threshold/threshold.hpp`), of `threshold_info` and its
`main` (`util/src/applications/threshold_info.cpp`: shape block, pattern
size, report loop) and of the pattern size chosen by `search_parsing`
(`src/argument_parsing/search_parsing.cpp`).

The table builders `precompute_threshold` and `precompute_correction` are
parameters of the embedded functions; where their result itself is the
subject, they are modelled from the specification of the system.

The percentage case of `get` multiplies in binary64; the product and its
truncation are computed on the fields of the double by
`binary64_mul_to_size_t`.

Machine integers are natural numbers; every unsigned operation that can wrap
is written with its modulus (`uint8_t`: 2^8, `unsigned int`/`uint32_t`: 2^32,
`size_t`/`uint64_t`: 2^64).  Operations whose behaviour is undefined in C++
(division by zero, `operator[]` past the end of a vector) return `none`.
-/

namespace Raptor

/-! ## Data model -/

/-- The type seqan3::shape, a bit pattern; `size()` is its span. -/
structure shape where
  bits : List Bool
deriving DecidableEq, Repr

/-- The member seqan3::shape::size(). -/
def shape.size (s : shape) : Nat := s.bits.length

/-- The shape seqan3::shape{seqan3::ungapped{k}}: k informative positions. -/
def ungapped (k : Nat) : shape := ⟨List.replicate k true⟩

/-- An IEEE-754 binary64 value by its three fields (1, 11 and 52 bits). The
classification `isnan` is computed on the fields here; the product with a
count and its conversion to size_t follow in the section on binary64
arithmetic. -/
structure double where
  sign : Bool
  exponent : Nat
  mantissa : Nat
deriving DecidableEq, Repr

/-- The test std::isnan: all exponent bits set and a non-zero mantissa. -/
def double.isnan (d : double) : Bool := d.exponent == 2047 && d.mantissa != 0

/-- The value std::numeric_limits<double>::quiet_NaN(). -/
def quiet_NaN : double := ⟨false, 2047, 2 ^ 51⟩

/-- The value 0.0, the value-initialised double. -/
def double.zero : double := ⟨false, 0, 0⟩

/-- The struct raptor::threshold::threshold_parameters. -/
structure threshold_parameters where
  window_size : Nat
  shape : shape
  pattern_size : Nat
  errors : Nat
  percentage : double
  p_max : double
  fpr : double
  tau : double
  cache_thresholds : Bool
  output_directory : String
deriving DecidableEq, Repr

/-- The values of a threshold_parameters fit their C++ types: `window_size`
is a uint32_t, `pattern_size` a uint64_t, `errors` a uint8_t, and the size of
the shape a uint8_t. -/
def threshold_parameters.wf (arguments : threshold_parameters) : Prop :=
  arguments.window_size < 2 ^ 32 ∧ arguments.shape.size < 2 ^ 8 ∧
  arguments.pattern_size < 2 ^ 64 ∧ arguments.errors < 2 ^ 8

instance (arguments : threshold_parameters) : Decidable arguments.wf := by
  unfold threshold_parameters.wf; infer_instance

/-- The enum threshold::threshold_kinds; its enumerator `lemma` is written
`lemma_`, the plain word being reserved. -/
inductive threshold_kinds where
  | probabilistic
  | lemma_
  | percentage
deriving DecidableEq, Repr

/-- The data members of the class raptor::threshold::threshold. -/
structure threshold where
  threshold_kind : threshold_kinds
  precomp_correction : List Nat
  precomp_thresholds : List Nat
  kmer_lemma : Nat
  minimal_number_of_minimizers : Nat
  maximal_number_of_minimizers : Nat
  threshold_percentage : double
deriving DecidableEq, Repr

/-- The default member initialisers of the class. -/
def threshold.default : threshold :=
  { threshold_kind := threshold_kinds.probabilistic
    precomp_correction := []
    precomp_thresholds := []
    kmer_lemma := 0
    minimal_number_of_minimizers := 0
    maximal_number_of_minimizers := 0
    threshold_percentage := double.zero }

/-! ## Derived quantities

The constructor of `threshold` and `threshold_info` compute the same four
locals with the same expressions; they are shared here. -/

/-- The local `uint8_t const kmer_size{arguments.shape.size()}`. -/
def kmer_size (s : shape) : Nat := s.size % 2 ^ 8

/-- The local `size_t const kmers_per_window = arguments.window_size - kmer_size + 1`:
the operands are a uint32_t and a promoted uint8_t, so the arithmetic is that
of `unsigned int`, modulo 2^32; the result is then widened to size_t. -/
def kmers_per_window (window_size : Nat) (s : shape) : Nat :=
  (window_size + 2 ^ 32 - kmer_size s + 1) % 2 ^ 32

/-- The local `size_t const kmers_per_pattern = arguments.pattern_size - kmer_size + 1`,
in uint64_t arithmetic. -/
def kmers_per_pattern (pattern_size : Nat) (s : shape) : Nat :=
  (pattern_size + 2 ^ 64 - kmer_size s + 1) % 2 ^ 64

/-- The quotient `kmers_per_pattern / kmers_per_window` of two size_t; a
zero divisor is handled where the quotient is taken. -/
def minimal_number_of_minimizers (window_size pattern_size : Nat) (s : shape) : Nat :=
  kmers_per_pattern pattern_size s / kmers_per_window window_size s

/-- The value `arguments.pattern_size - arguments.window_size + 1`, in
uint64_t arithmetic. -/
def maximal_number_of_minimizers (window_size pattern_size : Nat) : Nat :=
  (pattern_size + 2 ^ 64 - window_size + 1) % 2 ^ 64

/-- The lemma value of the constructor: the minuend `pattern_size + 1u` is a
uint64_t sum, the subtrahend `(errors + 1u) * kmer_size` an `unsigned int`
product, and the difference is taken only when the minuend is larger. -/
def kmer_lemma (pattern_size errors : Nat) (s : shape) : Nat :=
  let kmer_lemma_minuend := (pattern_size + 1) % 2 ^ 64
  let kmer_lemma_subtrahend := ((errors + 1) % 2 ^ 32 * kmer_size s) % 2 ^ 32
  if kmer_lemma_minuend > kmer_lemma_subtrahend then
    kmer_lemma_minuend - kmer_lemma_subtrahend
  else 0

/-! ## The dispatcher -/

/-- The constructor threshold::threshold(threshold_parameters const &). The
two table builders `precompute_correction` and `precompute_threshold` are
declared in headers outside this development and are parameters. The result
is `none` when the probabilistic branch divides by zero. -/
def threshold.construct (precompute_correction precompute_threshold : threshold_parameters → List Nat)
    (arguments : threshold_parameters) : Option threshold :=
  if !arguments.percentage.isnan then
    some { threshold.default with
      threshold_kind := threshold_kinds.percentage
      threshold_percentage := arguments.percentage }
  else if kmers_per_window arguments.window_size arguments.shape = 1 then
    some { threshold.default with
      threshold_kind := threshold_kinds.lemma_
      kmer_lemma := Raptor.kmer_lemma arguments.pattern_size arguments.errors arguments.shape }
  else if kmers_per_window arguments.window_size arguments.shape = 0 then
    none
  else
    some { threshold.default with
      threshold_kind := threshold_kinds.probabilistic
      minimal_number_of_minimizers :=
        Raptor.minimal_number_of_minimizers arguments.window_size arguments.pattern_size arguments.shape
      maximal_number_of_minimizers :=
        Raptor.maximal_number_of_minimizers arguments.window_size arguments.pattern_size
      precomp_correction := precompute_correction arguments
      precomp_thresholds := precompute_threshold arguments }

/-- The value of std::clamp(v, lo, hi) as libstdc++ computes it,
`std::min(std::max(v, lo), hi)`. The call has the precondition that hi is not
below lo and is undefined otherwise; `threshold.get` accounts for that. -/
def clamp (v lo hi : Nat) : Nat :=
  min (max v lo) hi

/-- The index computed in the default case of `get`: the clamped count minus
the minimal count, a size_t difference. -/
def threshold.index (t : threshold) (minimiser_count : Nat) : Nat :=
  (clamp minimiser_count t.minimal_number_of_minimizers t.maximal_number_of_minimizers
    + 2 ^ 64 - t.minimal_number_of_minimizers) % 2 ^ 64

/-- The member threshold::get. The percentage case,
`static_cast<size_t>(minimiser_count * threshold_percentage)`, is a binary64
product truncated to size_t; it is the parameter `mul_to_size_t`, which may
fail since the conversion of an unrepresentable value is undefined, and which
`binary64_mul_to_size_t` computes. The
default case calls std::clamp, which is undefined when the maximal count is
below the minimal count, then indexes both vectors with `operator[]` and adds
in size_t. -/
def threshold.get (mul_to_size_t : Nat → double → Option Nat) (t : threshold)
    (minimiser_count : Nat) : Option Nat :=
  match t.threshold_kind with
  | threshold_kinds.lemma_ => some t.kmer_lemma
  | threshold_kinds.percentage => mul_to_size_t minimiser_count t.threshold_percentage
  | threshold_kinds.probabilistic =>
    if t.maximal_number_of_minimizers < t.minimal_number_of_minimizers then none
    else
      match t.precomp_thresholds[t.index minimiser_count]?,
            t.precomp_correction[t.index minimiser_count]? with
      | some a, some b => some ((a + b) % 2 ^ 64)
      | _, _ => none

/-! ## The report of threshold_info -/

/-- The fields of raptor::search_arguments read by threshold_info and by the
pattern default. The struct is declared in
raptor/argument_parsing/search_arguments.hpp; the field types are those of
threshold_parameters (`window_size` a uint32_t, `pattern_size` a uint64_t). -/
structure search_arguments where
  window_size : Nat
  shape : shape
  shape_size : Nat
  pattern_size : Nat
  errors : Nat
  threshold : double
  p_max : double
  fpr : double
  tau : double
  cache_thresholds : Bool
  is_socks : Bool
deriving DecidableEq, Repr

/-- Modelled from the spec: the member search_arguments::make_threshold_parameters,
which is defined with the struct in the header that is not at hand. The
configuration record is built from window size, shape, pattern length, error budget,
percentage override, tau, p_max, false-positive rate and the cache flag. -/
def search_arguments.make_threshold_parameters (arguments : search_arguments) :
    threshold_parameters :=
  { window_size := arguments.window_size
    shape := arguments.shape
    pattern_size := arguments.pattern_size
    errors := arguments.errors
    percentage := arguments.threshold
    p_max := arguments.p_max
    fpr := arguments.fpr
    tau := arguments.tau
    cache_thresholds := arguments.cache_thresholds
    output_directory := "" }

/-- One line of the report: x, the number of reads with x minimisers, t(x),
t_p(x) and t_c(x). -/
structure report_row where
  x : Nat
  reads : Nat
  t : Nat
  t_p : Nat
  t_c : Nat
deriving DecidableEq, Repr

/-- The lambda `worker` over all records: once per record, under the mutex,
`++minimiser_frequencies[minimiser_count]`, an access past the end being
undefined. The second argument lists the minimiser counts of the records;
the order of the increments does not change the result. -/
def worker : List Nat → List Nat → Option (List Nat)
  | minimiser_frequencies, [] => some minimiser_frequencies
  | minimiser_frequencies, minimiser_count :: records =>
    match minimiser_frequencies[minimiser_count]? with
    | none => none
    | some reads =>
      worker (minimiser_frequencies.set minimiser_count ((reads + 1) % 2 ^ 64)) records

/-- The loop `while (last_non_zero_index && !minimiser_frequencies[last_non_zero_index])
--last_non_zero_index`, started at the second argument. -/
def last_non_zero (minimiser_frequencies : List Nat) : Nat → Nat
  | 0 => 0
  | last_non_zero_index + 1 =>
    if minimiser_frequencies.getD (last_non_zero_index + 1) 0 = 0 then
      last_non_zero minimiser_frequencies last_non_zero_index
    else last_non_zero_index + 1

/-- The body of the output loop over the values of `i` in the list: a zero
frequency is skipped, otherwise the row of `i` is written with both tables
read at `i - minimal_number_of_minimizers`. -/
def report_rows (minimiser_frequencies precomp_thresholds precomp_correction : List Nat)
    (minimal : Nat) : List Nat → Option (List report_row)
  | [] => some []
  | i :: rest =>
    match minimiser_frequencies[i]? with
    | none => none
    | some 0 => report_rows minimiser_frequencies precomp_thresholds precomp_correction minimal rest
    | some (reads + 1) =>
      match precomp_thresholds[i - minimal]?, precomp_correction[i - minimal]? with
      | some a, some b =>
        (report_rows minimiser_frequencies precomp_thresholds precomp_correction minimal rest).map
          (fun rows => ⟨i, reads + 1, (a + b) % 2 ^ 64, a, b⟩ :: rows)
      | _, _ => none

/-- The row the report is to hold for the count `i`: none when no read has
`i` minimisers, otherwise `i`, its frequency and the three thresholds read at
`i - minimal`. -/
def row_of (minimiser_frequencies precomp_thresholds precomp_correction : List Nat)
    (minimal i : Nat) : Option report_row :=
  if minimiser_frequencies[i]?.getD 0 = 0 then none
  else some ⟨i, minimiser_frequencies[i]?.getD 0,
    (precomp_thresholds[i - minimal]?.getD 0 + precomp_correction[i - minimal]?.getD 0) % 2 ^ 64,
    precomp_thresholds[i - minimal]?.getD 0, precomp_correction[i - minimal]?.getD 0⟩

/-- The function threshold_info, reduced to the rows it writes after the
header. Its inputs are the arguments, the two table builders and the
minimiser count of every record of the query file. -/
def threshold_info (precompute_correction precompute_threshold : threshold_parameters → List Nat)
    (arguments : search_arguments) (minimiser_counts : List Nat) : Option (List report_row) :=
  if kmers_per_window arguments.window_size arguments.shape = 0 then none
  else
    let minimal := minimal_number_of_minimizers arguments.window_size arguments.pattern_size
      arguments.shape
    let maximal := maximal_number_of_minimizers arguments.window_size arguments.pattern_size
    let parameters := arguments.make_threshold_parameters
    let precomp_correction := precompute_correction parameters
    let precomp_thresholds := precompute_threshold parameters
    match worker (List.replicate ((maximal + 1) % 2 ^ 64) 0) minimiser_counts with
    | none => none
    | some minimiser_frequencies =>
      if minimiser_frequencies.isEmpty then some []
      else
        let last_non_zero_index :=
          last_non_zero minimiser_frequencies (minimiser_frequencies.length - 1)
        report_rows (minimiser_frequencies.take (last_non_zero_index + 1))
          precomp_thresholds precomp_correction minimal
          (List.range' minimal (last_non_zero_index + 1 - minimal))

/-- Search arguments with an ungapped shape and no percentage override. -/
def sample_arguments (window_size kmer pattern_size errors : Nat) : search_arguments :=
  { window_size := window_size
    shape := ungapped kmer
    shape_size := kmer
    pattern_size := pattern_size
    errors := errors
    threshold := quiet_NaN
    p_max := double.zero
    fpr := double.zero
    tau := double.zero
    cache_thresholds := false
    is_socks := false }

/-! ## The table builders, from the specification -/

/-- Modelled from the spec: the derived quantity `minimal_minimizer_count =
kmers_per_pattern / kmers_per_window` by integer division, with
`kmers_per_window = window_size - kmer_size + 1` and
`kmers_per_pattern = pattern_length - kmer_size + 1`, as the table builders
(whose bodies are missing) are to compute it. -/
def minimal_minimizer_count (arguments : threshold_parameters) : Nat :=
  let kmers_per_window := arguments.window_size - arguments.shape.size + 1
  let kmers_per_pattern := arguments.pattern_size - arguments.shape.size + 1
  kmers_per_pattern / kmers_per_window

/-- Modelled from the spec: the derived quantity `maximal_minimizer_count =
pattern_length - window_size + 1`, as the missing table builders are to
compute it. -/
def maximal_minimizer_count (arguments : threshold_parameters) : Nat :=
  arguments.pattern_size - arguments.window_size + 1

/-- Modelled from the spec: the derived quantity `table_length =
maximal_minimizer_count - minimal_minimizer_count + 1` of the missing table
builders. -/
def table_length (arguments : threshold_parameters) : Nat :=
  maximal_minimizer_count arguments - minimal_minimizer_count arguments + 1

/-- Modelled from the spec: the function precompute_threshold, declared in
raptor/threshold/precompute_threshold.hpp, whose body is missing. The table
has one entry for every feasible count x from the minimal to the maximal
count, stored zero-based at x - minimal, table_length entries in all. The
entry for x comes from the error survival model, floating-point arithmetic
that is left as the parameter `threshold_at`. -/
def precompute_threshold (threshold_at : threshold_parameters → Nat → Nat)
    (arguments : threshold_parameters) : List Nat :=
  (List.range (table_length arguments)).map
    (fun index => threshold_at arguments (minimal_minimizer_count arguments + index))

/-- Modelled from the spec: the function precompute_correction, declared in
raptor/threshold/precompute_correction.hpp, whose body is missing. The table
has the same length as the threshold table, one integer adjustment for every
feasible count x; the adjustment is left as the parameter `correction_at`. -/
def precompute_correction (correction_at : threshold_parameters → Nat → Nat)
    (arguments : threshold_parameters) : List Nat :=
  (List.range (table_length arguments)).map
    (fun index => correction_at arguments (minimal_minimizer_count arguments + index))

/-! ## The default pattern size -/

/-- The call std::sort(sequence_lengths.begin(), sequence_lengths.end()) on a
vector of uint64_t: the ascending arrangement of the values. -/
def sort (sequence_lengths : List Nat) : List Nat :=
  sequence_lengths.insertionSort (fun a b => a ≤ b)

/-- The two statements shared by search_parsing and main: the vector is sorted
and `sequence_lengths[sequence_lengths.size() / 2]` is read, an access that is
undefined for an empty vector. -/
def median_sequence_length (sequence_lengths : List Nat) : Option Nat :=
  (sort sequence_lengths)[sequence_lengths.length / 2]?

/-- The value of `arguments.pattern_size` when search_parsing hands over to
raptor_search. The option is `none` when `--pattern` is not set, otherwise the
parsed value `pattern_size_strong.v`; `sequence_lengths` holds the sizes of the
records of the query file and `shape_size` is read from the index. Outside
socks mode the block "Process --pattern" assigns the median or the value
given; in socks mode that block is skipped and the pattern size is the shape
size. -/
def search_parsing_pattern_size (is_socks : Bool) (pattern_option : Option Nat)
    (sequence_lengths : List Nat) (shape_size : Nat) : Option Nat :=
  if !is_socks then
    match pattern_option with
    | none => median_sequence_length sequence_lengths
    | some v => some v
  else some shape_size

/-- The value of `arguments.pattern_size` when main of threshold_info calls
threshold_info. The member starts at 0 and the parser stores the value of
`--pattern` in it when the option is given; the median is then taken when the
member is 0. -/
def main_pattern_size (pattern_option : Option Nat) (sequence_lengths : List Nat) :
    Option Nat :=
  let pattern_size := pattern_option.getD 0
  if pattern_size = 0 then median_sequence_length sequence_lengths
  else some pattern_size

/-! ## Calls of get as steps on the dispatcher -/

/-- A call of the member get as a step on the dispatcher. The member is
declared `const noexcept` and its body assigns to no data member, so the
object after the call is the object before it; the second component is the
value returned. -/
def threshold.call_get (mul_to_size_t : Nat → double → Option Nat) (t : threshold)
    (minimiser_count : Nat) : threshold × Option Nat :=
  (t, t.get mul_to_size_t minimiser_count)

/-- A series of calls of get, each made on the object the previous call left;
the result is the object after the last call and the values returned, in the
order of the calls. -/
def threshold.call_series (mul_to_size_t : Nat → double → Option Nat) :
    threshold → List Nat → threshold × List (Option Nat)
  | t, [] => (t, [])
  | t, minimiser_count :: rest =>
    let step := t.call_get mul_to_size_t minimiser_count
    let later := threshold.call_series mul_to_size_t step.1 rest
    (later.1, step.2 :: later.2)

/-! ## The shape and the run of main in threshold_info -/

/-- The number written in base 2 by a run of the digits 0 and 1, the most
significant digit first. -/
def binary_value (digits : List Char) : Nat :=
  digits.foldl (fun value c => 2 * value + (if c = '1' then 1 else 0)) 0

/-- The call `std::from_chars(shape_string.data(), shape_string.data() +
shape_string.size(), tmp, 2)` on `uint64_t tmp{}`, whose result is discarded:
the longest leading run of binary digits is read, and `tmp` keeps its value 0
when that run is empty or writes a number that does not fit a uint64_t. -/
def from_chars (shape_string : String) : Nat :=
  let digits := shape_string.data.takeWhile (fun c => c = '0' ∨ c = '1')
  if binary_value digits < 2 ^ 64 then binary_value digits else 0

/-- The positions of a bitset built from an integer, the most significant
first: as many positions as the value has significant bits, none for 0. The
first argument bounds the number of positions. -/
def bits_of : Nat → Nat → List Bool → List Bool
  | 0, _, positions => positions
  | capacity + 1, value, positions =>
    if value = 0 then positions
    else bits_of capacity (value / 2) ((value % 2 == 1) :: positions)

/-- The expression `seqan3::shape{seqan3::bin_literal{tmp}}`. A shape is a
bitset of at most 58 positions; a value with a bit beyond the capacity is
refused by the library, which is the result none here. -/
def bin_literal (tmp : Nat) : Option shape :=
  if tmp < 2 ^ 58 then some ⟨bits_of 58 tmp []⟩ else none

/-- The exceptions that leave main of threshold_info. -/
inductive main_error where
  | argument_parser_error (what : String)
  | invalid_argument
deriving DecidableEq, Repr

/-- The block of main that settles the shape and the shape string.
The first argument is the value of `--shape` when that option is set, the
second is `parser.is_option_set("kmer")`, the third `arguments.shape_size`
after parsing (a uint8_t: the value of `--kmer` or the default). -/
def main_shape (shape_option : Option String) (kmer_is_set : Bool) (shape_size : Nat) :
    Except main_error (shape × String) :=
  match shape_option with
  | some shape_string =>
    if kmer_is_set then
      Except.error
        (main_error.argument_parser_error "You cannot set both shape and k-mer arguments.")
    else
      match bin_literal (from_chars shape_string) with
      | none => Except.error main_error.invalid_argument
      | some s => Except.ok (s, shape_string)
  | none => Except.ok (ungapped shape_size, String.mk (List.replicate shape_size '1'))

/-- The function main of threshold_info after `parser.parse()`: the shape
block, the creation of the output directory (the third option argument is
the message of the exception when the creation failed), the pattern size and
the call of threshold_info. The value is the exception that leaves main, or
the rows written, none standing for undefined behaviour. -/
def main (precompute_correction precompute_threshold : threshold_parameters → List Nat)
    (arguments : search_arguments) (shape_option : Option String) (kmer_is_set : Bool)
    (pattern_option : Option Nat) (directory_error : Option String)
    (sequence_lengths minimiser_counts : List Nat) :
    Except main_error (Option (List report_row)) :=
  match main_shape shape_option kmer_is_set arguments.shape_size with
  | Except.error e => Except.error e
  | Except.ok (s, _) =>
    match directory_error with
    | some what => Except.error (main_error.argument_parser_error what)
    | none =>
      match main_pattern_size pattern_option sequence_lengths with
      | none => Except.ok none
      | some pattern_size =>
        Except.ok (threshold_info precompute_correction precompute_threshold
          { arguments with shape := s, pattern_size := pattern_size } minimiser_counts)

/-! ## Binary64 arithmetic of the percentage case -/

/-- The significand of a finite double: the mantissa field, with the implicit
leading bit when the number is normal. -/
def double.significand (d : double) : Nat :=
  if d.exponent = 0 then d.mantissa else 2 ^ 52 + d.mantissa

/-- The exponent of the last place of a finite double, offset by 1074: the
magnitude of the double is `significand * 2 ^ scale / 2 ^ 1074`. -/
def double.scale (d : double) : Nat :=
  if d.exponent = 0 then 0 else d.exponent - 1

/-- The number `q * 2 ^ e / 2 ^ 1074` as a rational; one of the two powers
written is 1. -/
def scaled (q e : Nat) : ℚ :=
  ((q * 2 ^ (e - 1074) : Nat) : ℚ) / ((2 ^ (1074 - e) : Nat) : ℚ)

/-- The magnitude of a finite double as a rational number. -/
def double.magnitude (d : double) : ℚ :=
  scaled d.significand d.scale

/-- The number of significant bits of a natural number below `2 ^ 128`: the
position of its leading bit, 0 for the number 0. The first argument counts
the bits still to be looked at. -/
def significant_bits : Nat → Nat → Nat
  | 0, _ => 0
  | bits + 1, n => if n = 0 then 0 else significant_bits bits (n / 2) + 1

/-- Rounding of a natural number below `2 ^ 128` to 53 significant bits, to
nearest with ties to even, the rounding of binary64 arithmetic. The pair
(q, shift) stands for the number `q * 2 ^ shift`. -/
def round_to_53 (n : Nat) : Nat × Nat :=
  if n < 2 ^ 53 then (n, 0)
  else
    let shift := significant_bits 128 n - 53
    let q := n / 2 ^ shift
    let rest := n % 2 ^ shift
    let half := 2 ^ (shift - 1)
    if rest > half ∨ (rest = half ∧ q % 2 = 1) then (q + 1, shift) else (q, shift)

/-- The binary64 product `minimiser_count * threshold_percentage` of get, for a
size_t count and a finite factor: the count is converted to the nearest
double, and the exact product of the two doubles is rounded to a double. The
pair (q, e) stands for the magnitude `q * 2 ^ e / 2 ^ 1074`. -/
def binary64_product (minimiser_count : Nat) (threshold_percentage : double) : Nat × Nat :=
  let converted := (round_to_53 minimiser_count).1 * 2 ^ (round_to_53 minimiser_count).2
  let rounded := round_to_53 (converted * threshold_percentage.significand)
  (rounded.1, rounded.2 + threshold_percentage.scale)

/-- The expression `static_cast<size_t>(minimiser_count * threshold_percentage)`
of get in binary64 arithmetic (as on x86-64, where size_t has 64 bits and
double expressions are evaluated in binary64). A NaN or an infinite factor
gives a NaN or an infinite product; the conversion truncates towards zero and
is undefined when the truncated value is not a size_t. -/
def binary64_mul_to_size_t (minimiser_count : Nat) (threshold_percentage : double) :
    Option Nat :=
  if 2047 ≤ threshold_percentage.exponent then none
  else
    let product := binary64_product minimiser_count threshold_percentage
    let truncated := product.1 * 2 ^ (product.2 - 1074) / 2 ^ (1074 - product.2)
    if 2 ^ 64 ≤ truncated then none
    else if threshold_percentage.sign = true ∧ truncated ≠ 0 then none
    else some truncated

/-- The double nearest to 0.29, 0x3FD28F5C28F5C28F. -/
def double_0_29 : double := ⟨false, 1021, 0x28F5C28F5C28F⟩

/-! ## Sample configurations -/

/-- A threshold_parameters with an ungapped shape of the given k-mer size;
the fields read only by the table builders are zero. -/
def sample_parameters (window_size kmer pattern_size errors : Nat) (percentage : double) :
    threshold_parameters :=
  { window_size := window_size
    shape := ungapped kmer
    pattern_size := pattern_size
    errors := errors
    percentage := percentage
    p_max := double.zero
    fpr := double.zero
    tau := double.zero
    cache_thresholds := false
    output_directory := "" }

/-- A threshold table of the nine entries that window 5, k-mer size 4 and
pattern size 20 call for (counts 8 to 16). -/
def sample_thresholds : List Nat := [3, 3, 4, 4, 5, 5, 6, 6, 7]

/-- A correction table of the same nine entries. -/
def sample_correction : List Nat := [1, 1, 1, 1, 1, 1, 2, 2, 2]

/-- The double nearest to 0.7, 0x3FE6666666666666. -/
def double_0_7 : double := ⟨false, 1022, 0x6666666666666⟩

/-! ## Theorems -/

/-- The k-mer size is a uint8_t. -/
theorem kmer_size_lt (s : shape) : kmer_size s < 2 ^ 8 :=
  Nat.mod_lt _ (by norm_num)

/-- A shape whose size fits a uint8_t keeps its size as k-mer size. -/
theorem kmer_size_of_wf (arguments : threshold_parameters) (hwf : arguments.wf) :
    kmer_size arguments.shape = arguments.shape.size :=
  Nat.mod_eq_of_lt hwf.2.1

/-- Inside uint32_t the window holds exactly one k-mer only when the window
size is the k-mer size. -/
theorem kmers_per_window_eq_one_iff (window_size : Nat) (s : shape) (hw : window_size < 2 ^ 32) :
    kmers_per_window window_size s = 1 ↔ window_size = kmer_size s := by
  have hk := kmer_size_lt s
  unfold kmers_per_window
  omega

/-- C1: a set percentage (not NaN) always selects the percentage policy and
stores the fraction, also when window_size = kmer_size, where
kmers_per_window is 1, and for every error budget; a constructed dispatcher
is of the lemma kind exactly when the percentage is NaN and kmers_per_window
is 1, and of the probabilistic kind exactly when the percentage is NaN and
kmers_per_window is not 1. -/
theorem policy_selection_priority
    (precompute_correction precompute_threshold : threshold_parameters → List Nat)
    (arguments : threshold_parameters) (hwf : arguments.wf) :
    (arguments.percentage.isnan = false →
      ∃ d, threshold.construct precompute_correction precompute_threshold arguments = some d ∧
        d.threshold_kind = threshold_kinds.percentage ∧
        d.threshold_percentage = arguments.percentage) ∧
    (arguments.window_size = kmer_size arguments.shape ↔
      kmers_per_window arguments.window_size arguments.shape = 1) ∧
    (∀ d, threshold.construct precompute_correction precompute_threshold arguments = some d →
      (d.threshold_kind = threshold_kinds.percentage ↔ arguments.percentage.isnan = false) ∧
      (d.threshold_kind = threshold_kinds.lemma_ ↔
        (arguments.percentage.isnan = true ∧
          kmers_per_window arguments.window_size arguments.shape = 1)) ∧
      (d.threshold_kind = threshold_kinds.probabilistic ↔
        (arguments.percentage.isnan = true ∧
          kmers_per_window arguments.window_size arguments.shape ≠ 1))) := by
  refine ⟨?_, (kmers_per_window_eq_one_iff _ _ hwf.1).symm, ?_⟩
  · intro h
    simp [threshold.construct, h]
  · intro d hd
    unfold threshold.construct at hd
    cases hnan : arguments.percentage.isnan
    · simp [hnan] at hd
      subst hd
      simp
    · by_cases h1 : kmers_per_window arguments.window_size arguments.shape = 1
      · simp [hnan, h1] at hd
        subst hd
        simp [h1]
      · by_cases h0 : kmers_per_window arguments.window_size arguments.shape = 0
        · simp [hnan, h1, h0] at hd
        · simp [hnan, h1, h0] at hd
          subst hd
          simp [h1]

/-- When the minuend does not wrap, the lemma value is the truncated
difference of minuend and subtrahend. -/
theorem kmer_lemma_eq (pattern_size errors : Nat) (s : shape)
    (hp : pattern_size + 1 < 2 ^ 64) (he : errors < 2 ^ 8) :
    kmer_lemma pattern_size errors s = pattern_size + 1 - (errors + 1) * kmer_size s := by
  have hk := kmer_size_lt s
  have hprod : (errors + 1) * kmer_size s ≤ 256 * 255 :=
    Nat.mul_le_mul (by omega) (by omega)
  have h1 : (errors + 1) % 2 ^ 32 = errors + 1 := Nat.mod_eq_of_lt (by omega)
  have h2 : ((errors + 1) * kmer_size s) % 2 ^ 32 = (errors + 1) * kmer_size s :=
    Nat.mod_eq_of_lt (by omega)
  have h3 : (pattern_size + 1) % 2 ^ 64 = pattern_size + 1 := Nat.mod_eq_of_lt hp
  unfold kmer_lemma
  simp only [h1, h2, h3]
  split <;> omega

/-- C2 (amended): with the percentage absent, window_size = kmer_size and
pattern_size + 1 representable in 64 bits, the constructor yields a lemma
dispatcher and get returns, for every input, the integer
max(0, pattern_size + 1 - (errors + 1) * kmer_size), which is 0 whenever the
subtrahend is at least the minuend. -/
theorem lemma_policy_value
    (precompute_correction precompute_threshold : threshold_parameters → List Nat)
    (mul_to_size_t : Nat → double → Option Nat)
    (arguments : threshold_parameters) (hwf : arguments.wf)
    (hnan : arguments.percentage.isnan = true)
    (hwk : arguments.window_size = kmer_size arguments.shape)
    (hp : arguments.pattern_size + 1 < 2 ^ 64) :
    ∃ d, threshold.construct precompute_correction precompute_threshold arguments = some d ∧
      d.threshold_kind = threshold_kinds.lemma_ ∧
      ∀ x : Nat, ∃ v : Nat, d.get mul_to_size_t x = some v ∧
        (v : Int) = max 0 ((arguments.pattern_size : Int) + 1
          - ((arguments.errors : Int) + 1) * (kmer_size arguments.shape : Int)) ∧
        (arguments.pattern_size + 1 ≤ (arguments.errors + 1) * kmer_size arguments.shape →
          v = 0) := by
  have h1 := (kmers_per_window_eq_one_iff _ _ hwf.1).2 hwk
  refine ⟨_, by simp [threshold.construct, hnan, h1]; rfl, rfl, ?_⟩
  intro x
  refine ⟨_, rfl, ?_, ?_⟩
  · show ((kmer_lemma arguments.pattern_size arguments.errors arguments.shape : Nat) : Int) = _
    rw [kmer_lemma_eq _ _ _ hp hwf.2.2.2]
    have hcast : (((arguments.errors + 1) * kmer_size arguments.shape : Nat) : Int)
        = ((arguments.errors : Int) + 1) * (kmer_size arguments.shape : Int) := by
      push_cast; ring
    rw [← hcast]
    omega
  · intro hle
    show kmer_lemma arguments.pattern_size arguments.errors arguments.shape = 0
    rw [kmer_lemma_eq _ _ _ hp hwf.2.2.2]
    omega

/-- The two lemma values of the specification: pattern 100, k-mer 20 and 2
errors give 41; pattern 30 gives 0. -/
theorem lemma_policy_value_witness :
    (sample_parameters 20 20 100 2 quiet_NaN).wf ∧
    (∃ d, threshold.construct (fun _ => []) (fun _ => []) (sample_parameters 20 20 100 2 quiet_NaN)
        = some d ∧ ∀ x : Nat, d.get (fun _ _ => none) x = some 41) ∧
    (∃ d, threshold.construct (fun _ => []) (fun _ => []) (sample_parameters 20 20 30 2 quiet_NaN)
        = some d ∧ ∀ x : Nat, d.get (fun _ _ => none) x = some 0) := by
  refine ⟨by decide, ?_, ?_⟩
  · obtain ⟨d, hd, -, hv⟩ := lemma_policy_value (fun _ => []) (fun _ => []) (fun _ _ => none)
      (sample_parameters 20 20 100 2 quiet_NaN) (by decide) (by decide) (by decide) (by decide)
    refine ⟨d, hd, fun x => ?_⟩
    obtain ⟨v, hget, hval, -⟩ := hv x
    have hk : kmer_size (sample_parameters 20 20 100 2 quiet_NaN).shape = 20 := by decide
    rw [hk] at hval
    simp [sample_parameters] at hval
    rw [hget]
    congr 1
    omega
  · obtain ⟨d, hd, -, hv⟩ := lemma_policy_value (fun _ => []) (fun _ => []) (fun _ _ => none)
      (sample_parameters 20 20 30 2 quiet_NaN) (by decide) (by decide) (by decide) (by decide)
    refine ⟨d, hd, fun x => ?_⟩
    obtain ⟨v, hget, -, hz⟩ := hv x
    rw [hget, hz (by decide)]

/-- C2, the claim as stated fails: with pattern_size = 2^64 - 1, errors = 2
and window_size = kmer_size = 20 the minuend pattern_size + 1u wraps to 0, so
get returns 0 while max(0, pattern_size + 1 - 3 * 20) is 2^64 - 60. -/
theorem lemma_policy_value_counterexample :
    (sample_parameters 20 20 (2 ^ 64 - 1) 2 quiet_NaN).wf ∧
    (sample_parameters 20 20 (2 ^ 64 - 1) 2 quiet_NaN).percentage.isnan = true ∧
    (sample_parameters 20 20 (2 ^ 64 - 1) 2 quiet_NaN).window_size
      = kmer_size (sample_parameters 20 20 (2 ^ 64 - 1) 2 quiet_NaN).shape ∧
    ∃ d, threshold.construct (fun _ => []) (fun _ => [])
        (sample_parameters 20 20 (2 ^ 64 - 1) 2 quiet_NaN) = some d ∧
      d.get (fun _ _ => none) 0 = some 0 ∧
      max 0 (((2 ^ 64 - 1 : Nat) : Int) + 1 - (((2 : Nat) : Int) + 1) * ((20 : Nat) : Int))
        = 18446744073709551556 := by
  refine ⟨by decide, by decide, by decide, _, rfl, by decide, by decide⟩

/-- The percentage policy wins at window_size = kmer_size = 20 with 2 errors
and percentage 0.7, where kmers_per_window is 1. -/
theorem policy_selection_priority_witness :
    (sample_parameters 20 20 100 2 double_0_7).wf ∧
    kmers_per_window 20 (ungapped 20) = 1 ∧
    ∃ d, threshold.construct (fun _ => []) (fun _ => []) (sample_parameters 20 20 100 2 double_0_7)
        = some d ∧
      d.threshold_kind = threshold_kinds.percentage ∧ d.threshold_percentage = double_0_7 :=
  ⟨by decide, by decide,
    (policy_selection_priority (fun _ => []) (fun _ => [])
      (sample_parameters 20 20 100 2 double_0_7) (by decide)).1 (by decide)⟩

/-- For sizes that fit their types, with kmer_size ≤ window_size ≤
pattern_size and a non-zero kmers_per_window, the minimal minimiser count
does not exceed the maximal one. -/
theorem minimal_le_maximal (window_size pattern_size : Nat) (s : shape)
    (hw : window_size < 2 ^ 32) (hp : pattern_size < 2 ^ 64)
    (hkw : kmer_size s ≤ window_size) (hwp : window_size ≤ pattern_size)
    (h0 : kmers_per_window window_size s ≠ 0) :
    minimal_number_of_minimizers window_size pattern_size s
      ≤ maximal_number_of_minimizers window_size pattern_size := by
  have hk := kmer_size_lt s
  obtain ⟨b, hb⟩ := Nat.exists_eq_add_of_le hkw
  obtain ⟨a, ha⟩ := Nat.exists_eq_add_of_le hwp
  unfold minimal_number_of_minimizers maximal_number_of_minimizers
  unfold kmers_per_window at h0 ⊢
  unfold kmers_per_pattern
  have hkpw : (window_size + 2 ^ 32 - kmer_size s + 1) % 2 ^ 32 = b + 1 := by omega
  rw [hkpw]
  by_cases hmax : pattern_size - window_size + 1 < 2 ^ 64
  · have hm : (pattern_size + 2 ^ 64 - window_size + 1) % 2 ^ 64 = a + 1 := by omega
    rw [hm]
    apply Nat.div_le_of_le_mul
    have hpp : (pattern_size + 2 ^ 64 - kmer_size s + 1) % 2 ^ 64 ≤ a + b + 1 := by omega
    have : a + b + 1 ≤ (b + 1) * (a + 1) := by nlinarith
    omega
  · have hw0 : window_size = 0 := by omega
    have hpp : (pattern_size + 2 ^ 64 - kmer_size s + 1) % 2 ^ 64 = 0 := by omega
    rw [hpp]
    simp

/-- Without wrap-around the three derived quantities are the plain
expressions of the data model. -/
theorem derived_plain (window_size pattern_size : Nat) (s : shape)
    (hw : window_size < 2 ^ 32) (hp : pattern_size < 2 ^ 64)
    (hk1 : 1 ≤ kmer_size s) (hkw : kmer_size s ≤ window_size) (hwp : window_size ≤ pattern_size) :
    kmers_per_window window_size s = window_size - kmer_size s + 1 ∧
    minimal_number_of_minimizers window_size pattern_size s
      = (pattern_size - kmer_size s + 1) / (window_size - kmer_size s + 1) ∧
    maximal_number_of_minimizers window_size pattern_size = pattern_size - window_size + 1 := by
  have hk := kmer_size_lt s
  unfold minimal_number_of_minimizers maximal_number_of_minimizers kmers_per_window
    kmers_per_pattern
  have h1 : (window_size + 2 ^ 32 - kmer_size s + 1) % 2 ^ 32 = window_size - kmer_size s + 1 := by
    omega
  have h2 : (pattern_size + 2 ^ 64 - kmer_size s + 1) % 2 ^ 64 = pattern_size - kmer_size s + 1 := by
    omega
  have h3 : (pattern_size + 2 ^ 64 - window_size + 1) % 2 ^ 64 = pattern_size - window_size + 1 := by
    omega
  rw [h1, h2, h3]
  exact ⟨rfl, rfl, rfl⟩

/-- The clamped value lies in the interval when the interval is not empty. -/
theorem clamp_mem (v lo hi : Nat) (h : lo ≤ hi) : lo ≤ clamp v lo hi ∧ clamp v lo hi ≤ hi := by
  unfold clamp
  omega

/-- Every value at or below the lower bound is clamped to the lower bound. -/
theorem clamp_of_le_lo (v lo hi : Nat) (h : lo ≤ hi) (hv : v ≤ lo) : clamp v lo hi = lo := by
  unfold clamp
  omega

/-- Every value at or above the upper bound is clamped to the upper bound. -/
theorem clamp_of_hi_le (v lo hi : Nat) (_h : lo ≤ hi) (hv : hi ≤ v) : clamp v lo hi = hi := by
  unfold clamp
  omega

/-- With a non-empty interval below 2^64 the index of get is the clamped count
minus the minimal count, without wrap-around, and at most maximal - minimal. -/
theorem index_eq (t : threshold) (x : Nat)
    (hle : t.minimal_number_of_minimizers ≤ t.maximal_number_of_minimizers)
    (hmax : t.maximal_number_of_minimizers < 2 ^ 64) :
    t.index x = clamp x t.minimal_number_of_minimizers t.maximal_number_of_minimizers
        - t.minimal_number_of_minimizers ∧
    t.index x ≤ t.maximal_number_of_minimizers - t.minimal_number_of_minimizers := by
  have hc := clamp_mem x _ _ hle
  unfold threshold.index
  omega

/-- The shape of a successful construction of the probabilistic kind. -/
theorem construct_probabilistic
    (precompute_correction precompute_threshold : threshold_parameters → List Nat)
    (arguments : threshold_parameters) (d : threshold)
    (hd : threshold.construct precompute_correction precompute_threshold arguments = some d)
    (hkind : d.threshold_kind = threshold_kinds.probabilistic) :
    kmers_per_window arguments.window_size arguments.shape ≠ 0 ∧
    d.minimal_number_of_minimizers
      = minimal_number_of_minimizers arguments.window_size arguments.pattern_size arguments.shape ∧
    d.maximal_number_of_minimizers
      = maximal_number_of_minimizers arguments.window_size arguments.pattern_size ∧
    d.precomp_correction = precompute_correction arguments ∧
    d.precomp_thresholds = precompute_threshold arguments := by
  unfold threshold.construct at hd
  cases hnan : arguments.percentage.isnan
  · simp [hnan] at hd
    subst hd
    simp at hkind
  · by_cases h1 : kmers_per_window arguments.window_size arguments.shape = 1
    · simp [hnan, h1] at hd
      subst hd
      simp at hkind
    · by_cases h0 : kmers_per_window arguments.window_size arguments.shape = 0
      · simp [hnan, h1, h0] at hd
      · simp [hnan, h1, h0] at hd
        subst hd
        exact ⟨h0, rfl, rfl, rfl, rfl⟩

/-- C3: with the percentage absent, kmers_per_window not 1, sizes with
1 ≤ kmer_size ≤ window_size ≤ pattern_size and both tables of length
maximal - minimal + 1, the constructor yields a probabilistic dispatcher with
minimal = (pattern_size - kmer_size + 1) / (window_size - kmer_size + 1) and
maximal = pattern_size - window_size + 1, and for every input x get returns
the size_t sum threshold_table[i] + correction_table[i] at
i = clamp(x, minimal, maximal) - minimal. -/
theorem probabilistic_policy_lookup
    (precompute_correction precompute_threshold : threshold_parameters → List Nat)
    (mul_to_size_t : Nat → double → Option Nat)
    (arguments : threshold_parameters) (hwf : arguments.wf)
    (hnan : arguments.percentage.isnan = true)
    (hkpw : kmers_per_window arguments.window_size arguments.shape ≠ 1)
    (hk1 : 1 ≤ kmer_size arguments.shape)
    (hkw : kmer_size arguments.shape ≤ arguments.window_size)
    (hwp : arguments.window_size ≤ arguments.pattern_size)
    (hlen_t : (precompute_threshold arguments).length
      = (arguments.pattern_size - arguments.window_size + 1)
        - (arguments.pattern_size - kmer_size arguments.shape + 1)
          / (arguments.window_size - kmer_size arguments.shape + 1) + 1)
    (hlen_c : (precompute_correction arguments).length
      = (arguments.pattern_size - arguments.window_size + 1)
        - (arguments.pattern_size - kmer_size arguments.shape + 1)
          / (arguments.window_size - kmer_size arguments.shape + 1) + 1)
    (x : Nat) :
    ∃ d, threshold.construct precompute_correction precompute_threshold arguments = some d ∧
      d.threshold_kind = threshold_kinds.probabilistic ∧
      d.minimal_number_of_minimizers
        = (arguments.pattern_size - kmer_size arguments.shape + 1)
          / (arguments.window_size - kmer_size arguments.shape + 1) ∧
      d.maximal_number_of_minimizers = arguments.pattern_size - arguments.window_size + 1 ∧
      ∃ t c : Nat,
        (precompute_threshold arguments)[clamp x d.minimal_number_of_minimizers
          d.maximal_number_of_minimizers - d.minimal_number_of_minimizers]? = some t ∧
        (precompute_correction arguments)[clamp x d.minimal_number_of_minimizers
          d.maximal_number_of_minimizers - d.minimal_number_of_minimizers]? = some c ∧
        d.get mul_to_size_t x = some ((t + c) % 2 ^ 64) ∧
        (t + c < 2 ^ 64 → d.get mul_to_size_t x = some (t + c)) := by
  obtain ⟨hw, -, hp, -⟩ := hwf
  obtain ⟨hpw, hmin, hmax⟩ := derived_plain _ _ arguments.shape hw hp hk1 hkw hwp
  have h0 : kmers_per_window arguments.window_size arguments.shape ≠ 0 := by
    rw [hpw]; omega
  have hle := minimal_le_maximal _ _ arguments.shape hw hp hkw hwp h0
  have hd : threshold.construct precompute_correction precompute_threshold arguments
      = some { threshold.default with
          threshold_kind := threshold_kinds.probabilistic
          minimal_number_of_minimizers :=
            minimal_number_of_minimizers arguments.window_size arguments.pattern_size
              arguments.shape
          maximal_number_of_minimizers :=
            maximal_number_of_minimizers arguments.window_size arguments.pattern_size
          precomp_correction := precompute_correction arguments
          precomp_thresholds := precompute_threshold arguments } := by
    simp [threshold.construct, hnan, hkpw, h0]
  refine ⟨_, hd, rfl, hmin, hmax, ?_⟩
  simp only
  have hc := clamp_mem x _ _ hle
  have hidx := index_eq { threshold.default with
          threshold_kind := threshold_kinds.probabilistic
          minimal_number_of_minimizers :=
            minimal_number_of_minimizers arguments.window_size arguments.pattern_size
              arguments.shape
          maximal_number_of_minimizers :=
            maximal_number_of_minimizers arguments.window_size arguments.pattern_size
          precomp_correction := precompute_correction arguments
          precomp_thresholds := precompute_threshold arguments } x hle (by
            show maximal_number_of_minimizers _ _ < 2 ^ 64
            exact Nat.mod_lt _ (by norm_num))
  simp only at hidx
  rw [← hmin, ← hmax] at hlen_t hlen_c
  have hit : clamp x (minimal_number_of_minimizers arguments.window_size arguments.pattern_size
      arguments.shape) (maximal_number_of_minimizers arguments.window_size arguments.pattern_size)
      - minimal_number_of_minimizers arguments.window_size arguments.pattern_size arguments.shape
      < (precompute_threshold arguments).length := by omega
  have hic : clamp x (minimal_number_of_minimizers arguments.window_size arguments.pattern_size
      arguments.shape) (maximal_number_of_minimizers arguments.window_size arguments.pattern_size)
      - minimal_number_of_minimizers arguments.window_size arguments.pattern_size arguments.shape
      < (precompute_correction arguments).length := by omega
  refine ⟨_, _, List.getElem?_eq_getElem hit, List.getElem?_eq_getElem hic, ?_, ?_⟩
  · simp only [threshold.get, Nat.not_lt.2 hle, if_false, hidx.1, List.getElem?_eq_getElem hit,
      List.getElem?_eq_getElem hic]
  · intro hsum
    simp only [threshold.get, Nat.not_lt.2 hle, if_false, hidx.1, List.getElem?_eq_getElem hit,
      List.getElem?_eq_getElem hic]
    rw [Nat.mod_eq_of_lt hsum]

/-- The lookup of the sample tables at count 10 (index 2): 4 + 1 = 5. -/
theorem probabilistic_policy_lookup_witness :
    (sample_parameters 5 4 20 1 quiet_NaN).wf ∧
    ∃ d, threshold.construct (fun _ => sample_correction) (fun _ => sample_thresholds)
        (sample_parameters 5 4 20 1 quiet_NaN) = some d ∧
      d.minimal_number_of_minimizers = 8 ∧ d.maximal_number_of_minimizers = 16 ∧
      d.get (fun _ _ => none) 10 = some 5 := by
  refine ⟨by decide, ?_⟩
  obtain ⟨d, hd, -, hmin, hmax, t, c, ht, hc, -, hget⟩ :=
    probabilistic_policy_lookup (fun _ => sample_correction) (fun _ => sample_thresholds)
      (fun _ _ => none) (sample_parameters 5 4 20 1 quiet_NaN)
      (by decide) (by decide) (by decide) (by decide) (by decide) (by decide)
      (by decide) (by decide) 10
  have hmin8 : d.minimal_number_of_minimizers = 8 := hmin.trans (by decide)
  have hmax16 : d.maximal_number_of_minimizers = 16 := hmax.trans (by decide)
  rw [hmin8, hmax16] at ht hc
  have ht4 : t = 4 := by
    have h : sample_thresholds[clamp 10 8 16 - 8]? = some 4 := by decide
    rw [h] at ht
    exact (Option.some.inj ht).symm
  have hc1 : c = 1 := by
    have h : sample_correction[clamp 10 8 16 - 8]? = some 1 := by decide
    rw [h] at hc
    exact (Option.some.inj hc).symm
  subst ht4 hc1
  exact ⟨d, hd, hmin8, hmax16, hget (by decide)⟩

/-- C4: a probabilistic dispatcher constructed from sizes with
kmer_size ≤ window_size ≤ pattern_size answers every input at or below the
minimal count like the minimal count, and every input at or above the maximal
count like the maximal count. -/
theorem probabilistic_policy_clamping
    (precompute_correction precompute_threshold : threshold_parameters → List Nat)
    (mul_to_size_t : Nat → double → Option Nat)
    (arguments : threshold_parameters) (hwf : arguments.wf)
    (hkw : kmer_size arguments.shape ≤ arguments.window_size)
    (hwp : arguments.window_size ≤ arguments.pattern_size)
    (d : threshold)
    (hd : threshold.construct precompute_correction precompute_threshold arguments = some d)
    (hkind : d.threshold_kind = threshold_kinds.probabilistic) :
    (∀ x : Nat, x ≤ d.minimal_number_of_minimizers →
      d.get mul_to_size_t x = d.get mul_to_size_t d.minimal_number_of_minimizers) ∧
    (∀ x : Nat, d.maximal_number_of_minimizers ≤ x →
      d.get mul_to_size_t x = d.get mul_to_size_t d.maximal_number_of_minimizers) := by
  obtain ⟨hw, -, hp, -⟩ := hwf
  obtain ⟨h0, hmin, hmax, -, -⟩ := construct_probabilistic _ _ _ _ hd hkind
  have hle : d.minimal_number_of_minimizers ≤ d.maximal_number_of_minimizers := by
    rw [hmin, hmax]
    exact minimal_le_maximal _ _ arguments.shape hw hp hkw hwp h0
  constructor
  · intro x hx
    have hi : d.index x = d.index d.minimal_number_of_minimizers := by
      unfold threshold.index
      rw [clamp_of_le_lo _ _ _ hle hx, clamp_of_le_lo _ _ _ hle (le_refl _)]
    simp only [threshold.get, hkind, hi]
  · intro x hx
    have hi : d.index x = d.index d.maximal_number_of_minimizers := by
      unfold threshold.index
      rw [clamp_of_hi_le _ _ _ hle hx, clamp_of_hi_le _ _ _ hle (le_refl _)]
    simp only [threshold.get, hkind, hi]

/-- Clamping on the sample tables (minimal 8, maximal 16): counts 3 and 8 both
give 4, counts 21 and 16 both give 9. -/
theorem probabilistic_policy_clamping_witness :
    (sample_parameters 5 4 20 1 quiet_NaN).wf ∧
    ∃ d, threshold.construct (fun _ => sample_correction) (fun _ => sample_thresholds)
        (sample_parameters 5 4 20 1 quiet_NaN) = some d ∧
      d.minimal_number_of_minimizers = 8 ∧ d.maximal_number_of_minimizers = 16 ∧
      d.get (fun _ _ => none) (8 - 5) = d.get (fun _ _ => none) 8 ∧
      d.get (fun _ _ => none) (16 + 5) = d.get (fun _ _ => none) 16 ∧
      d.get (fun _ _ => none) 8 = some 4 ∧ d.get (fun _ _ => none) 16 = some 9 := by
  refine ⟨by decide, _, rfl, by decide, by decide, ?_, ?_, by decide, by decide⟩
  · exact (probabilistic_policy_clamping (fun _ => sample_correction) (fun _ => sample_thresholds)
      (fun _ _ => none) (sample_parameters 5 4 20 1 quiet_NaN) (by decide) (by decide) (by decide)
      _ rfl rfl).1 3 (by decide)
  · exact (probabilistic_policy_clamping (fun _ => sample_correction) (fun _ => sample_thresholds)
      (fun _ _ => none) (sample_parameters 5 4 20 1 quiet_NaN) (by decide) (by decide) (by decide)
      _ rfl rfl).2 21 (by decide)

/-- C6: for a dispatcher constructed from sizes with
kmer_size ≤ window_size ≤ pattern_size whose two tables have length
maximal - minimal + 1, the index computed by get is, for every input, smaller
than the length of both tables, and get returns a value. -/
theorem get_never_fails
    (precompute_correction precompute_threshold : threshold_parameters → List Nat)
    (mul_to_size_t : Nat → double → Option Nat)
    (arguments : threshold_parameters) (hwf : arguments.wf)
    (hkw : kmer_size arguments.shape ≤ arguments.window_size)
    (hwp : arguments.window_size ≤ arguments.pattern_size)
    (d : threshold)
    (hd : threshold.construct precompute_correction precompute_threshold arguments = some d)
    (hlen_t : d.precomp_thresholds.length
      = d.maximal_number_of_minimizers - d.minimal_number_of_minimizers + 1)
    (hlen_c : d.precomp_correction.length
      = d.maximal_number_of_minimizers - d.minimal_number_of_minimizers + 1)
    (x : Nat) :
    d.index x < d.precomp_thresholds.length ∧ d.index x < d.precomp_correction.length ∧
    ∃ v : Nat, d.get mul_to_size_t x = some v ∧ v < 2 ^ 64 := by
  obtain ⟨hw, -, hp, -⟩ := hwf
  have hkind : d.threshold_kind = threshold_kinds.probabilistic := by
    unfold threshold.construct at hd
    cases hnan : arguments.percentage.isnan
    · simp [hnan] at hd
      subst hd
      simp [threshold.default] at hlen_t
    · by_cases h1 : kmers_per_window arguments.window_size arguments.shape = 1
      · simp [hnan, h1] at hd
        subst hd
        simp [threshold.default] at hlen_t
      · by_cases h0 : kmers_per_window arguments.window_size arguments.shape = 0
        · simp [hnan, h1, h0] at hd
        · simp [hnan, h1, h0] at hd
          subst hd
          rfl
  obtain ⟨h0, hmin, hmax, -, -⟩ := construct_probabilistic _ _ _ _ hd hkind
  have hle : d.minimal_number_of_minimizers ≤ d.maximal_number_of_minimizers := by
    rw [hmin, hmax]
    exact minimal_le_maximal _ _ arguments.shape hw hp hkw hwp h0
  have hlt : d.maximal_number_of_minimizers < 2 ^ 64 := by
    rw [hmax]
    exact Nat.mod_lt _ (by norm_num)
  have hidx := (index_eq d x hle hlt).2
  have hit : d.index x < d.precomp_thresholds.length := by omega
  have hic : d.index x < d.precomp_correction.length := by omega
  refine ⟨hit, hic, (d.precomp_thresholds[d.index x] + d.precomp_correction[d.index x]) % 2 ^ 64,
    ?_, Nat.mod_lt _ (by norm_num)⟩
  simp only [threshold.get, hkind, Nat.not_lt.2 hle, if_false, List.getElem?_eq_getElem hit,
    List.getElem?_eq_getElem hic]

/-- On the sample tables get answers the inputs 0 and 2^64 - 1. -/
theorem get_never_fails_witness :
    (sample_parameters 5 4 20 1 quiet_NaN).wf ∧
    ∃ d, threshold.construct (fun _ => sample_correction) (fun _ => sample_thresholds)
        (sample_parameters 5 4 20 1 quiet_NaN) = some d ∧
      (d.index 0 < d.precomp_thresholds.length ∧ d.index 0 < d.precomp_correction.length ∧
        ∃ v : Nat, d.get (fun _ _ => none) 0 = some v ∧ v < 2 ^ 64) ∧
      (d.index (2 ^ 64 - 1) < d.precomp_thresholds.length ∧
        d.index (2 ^ 64 - 1) < d.precomp_correction.length ∧
        ∃ v : Nat, d.get (fun _ _ => none) (2 ^ 64 - 1) = some v ∧ v < 2 ^ 64) :=
  ⟨by decide, _, rfl,
    get_never_fails (fun _ => sample_correction) (fun _ => sample_thresholds) (fun _ _ => none)
      (sample_parameters 5 4 20 1 quiet_NaN) (by decide) (by decide) (by decide) _ rfl
      (by decide) (by decide) 0,
    get_never_fails (fun _ => sample_correction) (fun _ => sample_thresholds) (fun _ _ => none)
      (sample_parameters 5 4 20 1 quiet_NaN) (by decide) (by decide) (by decide) _ rfl
      (by decide) (by decide) (2 ^ 64 - 1)⟩

/-- C7 (amended): the constructor does not validate the sizing. With the
percentage absent and window_size + 1 < kmer_size the unsigned
kmers_per_window wraps to 2^32 + window_size + 1 - kmer_size, which is neither
0 nor 1, and the constructor yields a probabilistic dispatcher holding
minimal = kmers_per_pattern / kmers_per_window, the maximal count and the two
tables returned by the builders. -/
theorem construct_bad_sizing
    (precompute_correction precompute_threshold : threshold_parameters → List Nat)
    (arguments : threshold_parameters) (hwf : arguments.wf)
    (hnan : arguments.percentage.isnan = true)
    (hlt : arguments.window_size + 1 < kmer_size arguments.shape) :
    kmers_per_window arguments.window_size arguments.shape
      = 2 ^ 32 + arguments.window_size + 1 - kmer_size arguments.shape ∧
    ∃ d, threshold.construct precompute_correction precompute_threshold arguments = some d ∧
      d.threshold_kind = threshold_kinds.probabilistic ∧
      d.minimal_number_of_minimizers
        = kmers_per_pattern arguments.pattern_size arguments.shape
          / (2 ^ 32 + arguments.window_size + 1 - kmer_size arguments.shape) ∧
      d.maximal_number_of_minimizers
        = maximal_number_of_minimizers arguments.window_size arguments.pattern_size ∧
      d.precomp_correction = precompute_correction arguments ∧
      d.precomp_thresholds = precompute_threshold arguments := by
  have hk := kmer_size_lt arguments.shape
  have hw := hwf.1
  have hkpw : kmers_per_window arguments.window_size arguments.shape
      = 2 ^ 32 + arguments.window_size + 1 - kmer_size arguments.shape := by
    unfold kmers_per_window
    omega
  have h1 : kmers_per_window arguments.window_size arguments.shape ≠ 1 := by omega
  have h0 : kmers_per_window arguments.window_size arguments.shape ≠ 0 := by omega
  refine ⟨hkpw, _, by simp [threshold.construct, hnan, h1, h0]; rfl, rfl, ?_, rfl, rfl, rfl⟩
  show minimal_number_of_minimizers _ _ _ = _
  unfold minimal_number_of_minimizers
  rw [hkpw]

/-- The amended statement at window 10, k-mer size 20, pattern 100. -/
theorem construct_bad_sizing_witness :
    (sample_parameters 10 20 100 2 quiet_NaN).wf ∧
    kmers_per_window 10 (ungapped 20) = 4294967287 ∧
    ∃ d, threshold.construct (fun _ => []) (fun _ => []) (sample_parameters 10 20 100 2 quiet_NaN)
        = some d ∧
      d.threshold_kind = threshold_kinds.probabilistic := by
  obtain ⟨hkpw, d, hd, hkind, -⟩ := construct_bad_sizing (fun _ => []) (fun _ => [])
    (sample_parameters 10 20 100 2 quiet_NaN) (by decide) (by decide) (by decide)
  exact ⟨by decide, by decide, d, hd, hkind⟩

/-- C7, the claim as stated fails: window_size = 10 is smaller than
kmer_size = 20 and the percentage is absent, yet the constructor returns a
dispatcher, of the probabilistic kind with minimal 0 and maximal 91. -/
theorem construct_bad_sizing_counterexample :
    (sample_parameters 10 20 100 2 quiet_NaN).wf ∧
    (sample_parameters 10 20 100 2 quiet_NaN).percentage.isnan = true ∧
    (sample_parameters 10 20 100 2 quiet_NaN).window_size
      < kmer_size (sample_parameters 10 20 100 2 quiet_NaN).shape ∧
    threshold.construct (fun _ => []) (fun _ => []) (sample_parameters 10 20 100 2 quiet_NaN)
      = some { threshold_kind := threshold_kinds.probabilistic
               precomp_correction := []
               precomp_thresholds := []
               kmer_lemma := 0
               minimal_number_of_minimizers := 0
               maximal_number_of_minimizers := 91
               threshold_percentage := double.zero } := by
  refine ⟨by decide, by decide, by decide, by decide⟩

/-- The worker loop succeeds when every count indexes the vector, keeps its
length and adds to every entry the number of records with that count. -/
theorem worker_spec (records : List Nat) :
    ∀ frequencies : List Nat,
      (∀ c ∈ records, c < frequencies.length) →
      (∀ (i v : Nat), frequencies[i]? = some v → v + records.length < 2 ^ 64) →
      ∃ f, worker frequencies records = some f ∧ f.length = frequencies.length ∧
        ∀ i : Nat, i < frequencies.length →
          f[i]?.getD 0 = frequencies[i]?.getD 0 + records.count i := by
  induction records with
  | nil =>
    intro frequencies _ _
    exact ⟨frequencies, rfl, rfl, fun i _ => by simp⟩
  | cons c rest ih =>
    intro frequencies hmem hbound
    have hc : c < frequencies.length := hmem c (List.mem_cons_self _ _)
    have hget : frequencies[c]? = some frequencies[c] := List.getElem?_eq_getElem hc
    have hv := hbound c _ hget
    simp only [List.length_cons] at hv
    have hmod : (frequencies[c] + 1) % 2 ^ 64 = frequencies[c] + 1 := Nat.mod_eq_of_lt (by omega)
    obtain ⟨f, hf, hlen, hval⟩ := ih (frequencies.set c (frequencies[c] + 1))
      (fun c' hc' => by
        rw [List.length_set]
        exact hmem c' (List.mem_cons_of_mem _ hc'))
      (fun i v hiv => by
        by_cases hic : c = i
        · subst hic
          rw [List.getElem?_set_self hc] at hiv
          have := Option.some.inj hiv
          omega
        · rw [List.getElem?_set_ne hic] at hiv
          have := hbound i v hiv
          simp only [List.length_cons] at this
          omega)
    refine ⟨f, ?_, by rw [hlen, List.length_set], ?_⟩
    · simp only [worker, hget, hmod]
      exact hf
    · intro i hi
      rw [hval i (by rw [List.length_set]; exact hi)]
      by_cases hic : c = i
      · subst hic
        rw [List.getElem?_set_self hc, hget]
        simp [List.count_cons]
        omega
      · rw [List.getElem?_set_ne hic]
        simp [List.count_cons, hic]

/-- The index found by the backward loop is at most its start, and every
entry between the two is zero. -/
theorem last_non_zero_spec (frequencies : List Nat) (n : Nat) :
    last_non_zero frequencies n ≤ n ∧
    ∀ i : Nat, last_non_zero frequencies n < i → i ≤ n → frequencies[i]?.getD 0 = 0 := by
  induction n with
  | zero =>
    exact ⟨Nat.le_refl 0, fun i h1 h2 => by simp [last_non_zero] at h1; omega⟩
  | succ n ih =>
    unfold last_non_zero
    split
    · rename_i hz
      refine ⟨Nat.le_succ_of_le ih.1, fun i h1 h2 => ?_⟩
      by_cases hi : i = n + 1
      · subst hi
        simpa using hz
      · exact ih.2 i h1 (by omega)
    · exact ⟨Nat.le_refl _, fun i h1 h2 => by omega⟩

/-- With all accesses in range the output loop writes the rows of `row_of`
in the order of the loop. -/
theorem report_rows_spec (frequencies pt pc : List Nat) (minimal : Nat) (l : List Nat)
    (h : ∀ i ∈ l, i < frequencies.length ∧ i - minimal < pt.length ∧ i - minimal < pc.length) :
    report_rows frequencies pt pc minimal l
      = some (l.filterMap (row_of frequencies pt pc minimal)) := by
  induction l with
  | nil => rfl
  | cons i rest ih =>
    obtain ⟨hf, ht, hc⟩ := h i (List.mem_cons_self _ _)
    have ih := ih (fun j hj => h j (List.mem_cons_of_mem _ hj))
    have hfi : frequencies[i]? = some frequencies[i] := List.getElem?_eq_getElem hf
    have hti : pt[i - minimal]? = some pt[i - minimal] := List.getElem?_eq_getElem ht
    have hci : pc[i - minimal]? = some pc[i - minimal] := List.getElem?_eq_getElem hc
    unfold report_rows
    rw [hfi]
    cases hv : frequencies[i] with
    | zero =>
      simp only [ih]
      rw [List.filterMap_cons]
      simp [row_of, hfi, hv]
    | succ reads =>
      simp only [hti, hci, ih, Option.map_some']
      rw [List.filterMap_cons]
      simp [row_of, hfi, hv, hti, hci]

/-- A map that is defined at one key only keeps at most that key of a
duplicate-free list. -/
theorem filterMap_single {β : Type} (g : Nat → Option β) (x : Nat) (hg : ∀ i, i ≠ x → g i = none)
    (l : List Nat) (hnd : l.Nodup) :
    l.filterMap g = if x ∈ l then (g x).toList else [] := by
  induction l with
  | nil => rfl
  | cons i rest ih =>
    have hnd' := List.nodup_cons.1 hnd
    have ih := ih hnd'.2
    by_cases hix : i = x
    · subst hix
      have hnot : i ∉ rest := hnd'.1
      rw [if_neg hnot] at ih
      rw [List.filterMap_cons, ih]
      cases hgi : g i <;> simp
    · rw [List.filterMap_cons, hg i hix, ih]
      have : (x ∈ i :: rest) ↔ x ∈ rest := by
        simp [List.mem_cons, Ne.symm hix]
      simp only [this]

/-- The row of a count carries that count. -/
theorem row_of_x (frequencies pt pc : List Nat) (minimal i : Nat) (r : report_row)
    (h : row_of frequencies pt pc minimal i = some r) : r.x = i := by
  unfold row_of at h
  split at h
  · cases h
  · cases h
    rfl

/-- The rows of one count among the rows of a duplicate-free list of counts. -/
theorem filter_rows (frequencies pt pc : List Nat) (minimal x : Nat) (l : List Nat)
    (hnd : l.Nodup) :
    (l.filterMap (row_of frequencies pt pc minimal)).filter (fun r => r.x = x)
      = if x ∈ l then (row_of frequencies pt pc minimal x).toList else [] := by
  rw [List.filter_filterMap]
  rw [filterMap_single _ x ?_ l hnd]
  · split
    · cases hr : row_of frequencies pt pc minimal x with
      | none => rfl
      | some r =>
        have := row_of_x _ _ _ _ _ _ hr
        simp [Option.filter, this]
    · rfl
  · intro i hi
    cases hr : row_of frequencies pt pc minimal i with
    | none => rfl
    | some r =>
      have := row_of_x _ _ _ _ _ _ hr
      simp [Option.filter, this, hi]

/-- C8 (amended): when every minimiser count indexes the frequency vector
(whose size is maximal + 1 in size_t) and both tables have length
maximal - minimal + 1, threshold_info writes, for every observed count x with
minimal ≤ x, exactly one row for x, holding x, the number of reads with x
minimisers and the triple (t[i] + c[i] in size_t, t[i], c[i]) at
i = x - minimal; it writes no row for a count below minimal and no row for a
count that was not observed. -/
theorem threshold_info_report
    (precompute_correction precompute_threshold : threshold_parameters → List Nat)
    (arguments : search_arguments) (minimiser_counts : List Nat)
    (h0 : kmers_per_window arguments.window_size arguments.shape ≠ 0)
    (hcounts : ∀ c ∈ minimiser_counts,
      c < (maximal_number_of_minimizers arguments.window_size arguments.pattern_size + 1) % 2 ^ 64)
    (hreads : minimiser_counts.length < 2 ^ 64)
    (hlen_t : (precompute_threshold arguments.make_threshold_parameters).length
      = maximal_number_of_minimizers arguments.window_size arguments.pattern_size
        - minimal_number_of_minimizers arguments.window_size arguments.pattern_size
            arguments.shape + 1)
    (hlen_c : (precompute_correction arguments.make_threshold_parameters).length
      = maximal_number_of_minimizers arguments.window_size arguments.pattern_size
        - minimal_number_of_minimizers arguments.window_size arguments.pattern_size
            arguments.shape + 1) :
    ∃ rows, threshold_info precompute_correction precompute_threshold arguments minimiser_counts
        = some rows ∧
      (∀ x ∈ minimiser_counts,
        minimal_number_of_minimizers arguments.window_size arguments.pattern_size
          arguments.shape ≤ x →
        ∃ t c : Nat,
          (precompute_threshold arguments.make_threshold_parameters)[x
            - minimal_number_of_minimizers arguments.window_size arguments.pattern_size
                arguments.shape]? = some t ∧
          (precompute_correction arguments.make_threshold_parameters)[x
            - minimal_number_of_minimizers arguments.window_size arguments.pattern_size
                arguments.shape]? = some c ∧
          rows.filter (fun r => r.x = x)
            = [⟨x, minimiser_counts.count x, (t + c) % 2 ^ 64, t, c⟩]) ∧
      (∀ x : Nat,
        x < minimal_number_of_minimizers arguments.window_size arguments.pattern_size
          arguments.shape →
        rows.filter (fun r => r.x = x) = []) ∧
      (∀ x : Nat, x ∉ minimiser_counts → rows.filter (fun r => r.x = x) = []) := by
  generalize hmin : minimal_number_of_minimizers arguments.window_size arguments.pattern_size
    arguments.shape = minimal at *
  generalize hmax : maximal_number_of_minimizers arguments.window_size arguments.pattern_size
    = maximal at *
  generalize hpt : precompute_threshold arguments.make_threshold_parameters = pt at *
  generalize hpc : precompute_correction arguments.make_threshold_parameters = pc at *
  have hsize : (maximal + 1) % 2 ^ 64 ≤ maximal + 1 := Nat.mod_le _ _
  obtain ⟨f, hf, hflen, hfval⟩ := worker_spec minimiser_counts
    (List.replicate ((maximal + 1) % 2 ^ 64) 0)
    (fun c hc => by rw [List.length_replicate]; exact hcounts c hc)
    (fun i v hiv => by
      rw [List.getElem?_replicate] at hiv
      split at hiv
      · have := Option.some.inj hiv
        omega
      · cases hiv)
  rw [List.length_replicate] at hflen hfval
  have hcount : ∀ i : Nat, i < (maximal + 1) % 2 ^ 64 → f[i]?.getD 0 = minimiser_counts.count i := by
    intro i hi
    rw [hfval i hi, List.getElem?_replicate_of_lt hi]
    simp
  have hinfo : threshold_info precompute_correction precompute_threshold arguments
      minimiser_counts
      = if f.isEmpty then some []
        else report_rows (f.take (last_non_zero f (f.length - 1) + 1)) pt pc minimal
          (List.range' minimal (last_non_zero f (f.length - 1) + 1 - minimal)) := by
    simp only [threshold_info, h0, if_false, hmin, hmax, hpt, hpc, hf]
  rw [hinfo]
  by_cases hempty : f = []
  · subst hempty
    have hnil : minimiser_counts = [] := by
      cases minimiser_counts with
      | nil => rfl
      | cons c rest =>
        have := hcounts c (List.mem_cons_self _ _)
        simp only [List.length_nil] at hflen
        omega
    subst hnil
    exact ⟨[], rfl, fun x hx => absurd hx (List.not_mem_nil x), fun x _ => rfl, fun x _ => rfl⟩
  · have hpos : 0 < f.length := List.length_pos.2 hempty
    have hne : f.isEmpty = false := by
      cases f with
      | nil => exact absurd rfl hempty
      | cons a as => rfl
    obtain ⟨hlast, hzero⟩ := last_non_zero_spec f (f.length - 1)
    generalize last_non_zero f (f.length - 1) = last at *
    have htake : (f.take (last + 1)).length = last + 1 := by
      rw [List.length_take]
      omega
    have hrows := report_rows_spec (f.take (last + 1)) pt pc minimal
      (List.range' minimal (last + 1 - minimal))
      (fun i hi => by
        rw [List.mem_range'_1] at hi
        rw [htake, hlen_t, hlen_c]
        omega)
    rw [hne, if_neg (by simp), hrows]
    have htakeval : ∀ i : Nat, i ≤ last → (f.take (last + 1))[i]?.getD 0 = minimiser_counts.count i := by
      intro i hi
      rw [List.getElem?_take_of_lt (by omega)]
      exact hcount i (by omega)
    have hobs : ∀ x ∈ minimiser_counts, x ≤ last := by
      intro x hx
      by_contra hgt
      have hxs := hcounts x hx
      have hz := hzero x (by omega) (by omega)
      rw [hcount x hxs] at hz
      exact (List.count_pos_iff.2 hx).ne' hz
    refine ⟨_, rfl, ?_, ?_, ?_⟩
    · intro x hx hminx
      have hxl := hobs x hx
      have hxs := hcounts x hx
      have hit : x - minimal < pt.length := by rw [hlen_t]; omega
      have hic : x - minimal < pc.length := by rw [hlen_c]; omega
      refine ⟨pt[x - minimal], pc[x - minimal], List.getElem?_eq_getElem hit,
        List.getElem?_eq_getElem hic, ?_⟩
      rw [filter_rows _ _ _ _ _ _ (List.nodup_range' _ _),
        if_pos (by rw [List.mem_range'_1]; omega)]
      have hcx : minimiser_counts.count x ≠ 0 := (List.count_pos_iff.2 hx).ne'
      simp [row_of, htakeval x hxl, hcx, List.getElem?_eq_getElem hit,
        List.getElem?_eq_getElem hic]
    · intro x hx
      rw [filter_rows _ _ _ _ _ _ (List.nodup_range' _ _),
        if_neg (by rw [List.mem_range'_1]; omega)]
    · intro x hx
      rw [filter_rows _ _ _ _ _ _ (List.nodup_range' _ _)]
      split
      · rename_i hmem
        rw [List.mem_range'_1] at hmem
        have hcx : minimiser_counts.count x = 0 := List.count_eq_zero.2 hx
        simp [row_of, htakeval x (by omega), hcx]
      · rfl

/-- The report for the counts 3, 10, 10 with the sample tables (minimal 8,
maximal 16): one row for the count 10, none for the count 3. -/
theorem threshold_info_report_witness :
    kmers_per_window 5 (ungapped 4) ≠ 0 ∧
    ∃ rows, threshold_info (fun _ => sample_correction) (fun _ => sample_thresholds)
        (sample_arguments 5 4 20 1) [3, 10, 10] = some rows ∧
      rows.filter (fun r => r.x = 10) = [⟨10, 2, 5, 4, 1⟩] ∧
      rows.filter (fun r => r.x = 3) = [] := by
  obtain ⟨rows, hrows, hobserved, hbelow, -⟩ :=
    threshold_info_report (fun _ => sample_correction) (fun _ => sample_thresholds)
      (sample_arguments 5 4 20 1) [3, 10, 10]
      (by decide) (by decide) (by decide) (by decide) (by decide)
  refine ⟨by decide, rows, hrows, ?_, hbelow 3 (by decide)⟩
  obtain ⟨t, c, ht, hc, hrow⟩ := hobserved 10 (by decide) (by decide)
  have ht4 : some t = some 4 := ht.symm.trans (by decide)
  have hc1 : some c = some 1 := hc.symm.trans (by decide)
  cases ht4
  cases hc1
  rw [hrow]
  decide

/-- C8, the claim as stated fails: the count 3 is observed and lies below the
minimal count 8; the report holds the row of the count 10 only, so no row is
written for the observed count 3. -/
theorem threshold_info_report_counterexample :
    3 ∈ [3, 10, 10] ∧
    3 < minimal_number_of_minimizers (sample_arguments 5 4 20 1).window_size
      (sample_arguments 5 4 20 1).pattern_size (sample_arguments 5 4 20 1).shape ∧
    threshold_info (fun _ => sample_correction) (fun _ => sample_thresholds)
      (sample_arguments 5 4 20 1) [3, 10, 10] = some [⟨10, 2, 5, 4, 1⟩] ∧
    List.filter (fun r : report_row => r.x = 3) [⟨10, 2, 5, 4, 1⟩] = [] := by
  refine ⟨by decide, by decide, by decide, by decide⟩

/-- C9: with the percentage absent, kmers_per_window not 1 and sizes with
1 ≤ kmer_size ≤ window_size ≤ pattern_size, the probabilistic dispatcher built
with the table builders of the specification stores a threshold table and a
correction table of length maximal - minimal + 1 each, maximal and minimal
being the counts the constructor stored. -/
theorem table_length_invariant
    (correction_at threshold_at : threshold_parameters → Nat → Nat)
    (arguments : threshold_parameters) (hwf : arguments.wf)
    (hnan : arguments.percentage.isnan = true)
    (hkpw : kmers_per_window arguments.window_size arguments.shape ≠ 1)
    (hk1 : 1 ≤ kmer_size arguments.shape)
    (hkw : kmer_size arguments.shape ≤ arguments.window_size)
    (hwp : arguments.window_size ≤ arguments.pattern_size) :
    ∃ d, threshold.construct (precompute_correction correction_at)
        (precompute_threshold threshold_at) arguments = some d ∧
      d.threshold_kind = threshold_kinds.probabilistic ∧
      d.precomp_thresholds.length
        = d.maximal_number_of_minimizers - d.minimal_number_of_minimizers + 1 ∧
      d.precomp_correction.length
        = d.maximal_number_of_minimizers - d.minimal_number_of_minimizers + 1 := by
  have hks := kmer_size_of_wf arguments hwf
  obtain ⟨hw, -, hp, -⟩ := hwf
  obtain ⟨hpw, hmin, hmax⟩ := derived_plain _ _ arguments.shape hw hp hk1 hkw hwp
  have h0 : kmers_per_window arguments.window_size arguments.shape ≠ 0 := by
    rw [hpw]; omega
  have hlen : table_length arguments
      = maximal_number_of_minimizers arguments.window_size arguments.pattern_size
        - minimal_number_of_minimizers arguments.window_size arguments.pattern_size
            arguments.shape + 1 := by
    unfold table_length maximal_minimizer_count minimal_minimizer_count
    rw [hmin, hmax, hks]
  refine ⟨_, by simp [threshold.construct, hnan, hkpw, h0]; rfl, rfl, ?_, ?_⟩
  · show (precompute_threshold threshold_at arguments).length = _
    unfold precompute_threshold
    rw [List.length_map, List.length_range, hlen]
  · show (precompute_correction correction_at arguments).length = _
    unfold precompute_correction
    rw [List.length_map, List.length_range, hlen]

/-- The two tables for window 5, k-mer size 4 and pattern 20 have the 9
entries of the counts 8 to 16. -/
theorem table_length_invariant_witness :
    (sample_parameters 5 4 20 1 quiet_NaN).wf ∧
    ∃ d, threshold.construct (precompute_correction (fun _ _ => 1))
        (precompute_threshold (fun _ x => x / 2)) (sample_parameters 5 4 20 1 quiet_NaN)
        = some d ∧
      d.precomp_thresholds.length = 9 ∧ d.precomp_correction.length = 9 := by
  obtain ⟨d, hd, hkind, ht, hc⟩ := table_length_invariant (fun _ _ => 1) (fun _ x => x / 2)
    (sample_parameters 5 4 20 1 quiet_NaN)
    (by decide) (by decide) (by decide) (by decide) (by decide) (by decide)
  obtain ⟨-, hmin, hmax, -, -⟩ := construct_probabilistic _ _ _ _ hd hkind
  have hmin8 : d.minimal_number_of_minimizers = 8 := hmin.trans (by decide)
  have hmax16 : d.maximal_number_of_minimizers = 16 := hmax.trans (by decide)
  rw [hmin8, hmax16] at ht hc
  exact ⟨by decide, d, hd, ht, hc⟩

/-- The sorted vector is the one ascending arrangement of the values. -/
theorem sort_unique (sequence_lengths sorted : List Nat)
    (hperm : sorted.Perm sequence_lengths) (hsorted : sorted.Sorted (fun a b => a ≤ b)) :
    sort sequence_lengths = sorted :=
  List.eq_of_perm_of_sorted ((List.perm_insertionSort _ _).trans hperm.symm)
    (List.sorted_insertionSort _ _) hsorted

/-- C10 (amended): for every non-empty list of query sequence lengths, when
the pattern option is not set the pattern size is the element at position
floor(n/2) of the lengths in ascending order, in search_parsing outside socks
mode and in main of threshold_info; a value given by the caller is used
unchanged by search_parsing outside socks mode, and by main of threshold_info
when it is not 0, the value 0 being read as not given. -/
theorem default_pattern_size (sequence_lengths : List Nat) (hne : sequence_lengths ≠ [])
    (sorted : List Nat) (hperm : sorted.Perm sequence_lengths)
    (hsorted : sorted.Sorted (fun a b => a ≤ b)) (shape_size : Nat) :
    ∃ median : Nat, sorted[sequence_lengths.length / 2]? = some median ∧
      search_parsing_pattern_size false none sequence_lengths shape_size = some median ∧
      main_pattern_size none sequence_lengths = some median ∧
      (∀ v : Nat,
        search_parsing_pattern_size false (some v) sequence_lengths shape_size = some v) ∧
      (∀ v : Nat, v ≠ 0 → main_pattern_size (some v) sequence_lengths = some v) ∧
      main_pattern_size (some 0) sequence_lengths = some median := by
  have hlen : sorted.length = sequence_lengths.length := hperm.length_eq
  have hpos : 0 < sequence_lengths.length := List.length_pos.2 hne
  have hidx : sequence_lengths.length / 2 < sorted.length := by
    rw [hlen]
    exact Nat.div_lt_self hpos (by norm_num)
  have hmed : median_sequence_length sequence_lengths
      = some sorted[sequence_lengths.length / 2] := by
    unfold median_sequence_length
    rw [sort_unique _ _ hperm hsorted]
    exact List.getElem?_eq_getElem hidx
  refine ⟨sorted[sequence_lengths.length / 2], List.getElem?_eq_getElem hidx, ?_, ?_, ?_, ?_, ?_⟩
  · simp [search_parsing_pattern_size, hmed]
  · simp [main_pattern_size, hmed]
  · intro v
    simp [search_parsing_pattern_size]
  · intro v hv
    simp [main_pattern_size, hv]
  · simp [main_pattern_size, hmed]

/-- The lengths 5, 3, 9 sort to 3, 5, 9, whose element at position 1 is 5. -/
theorem default_pattern_size_witness :
    ([5, 3, 9] : List Nat) ≠ [] ∧
    search_parsing_pattern_size false none [5, 3, 9] 20 = some 5 ∧
    main_pattern_size none [5, 3, 9] = some 5 ∧
    search_parsing_pattern_size false (some 7) [5, 3, 9] 20 = some 7 ∧
    main_pattern_size (some 7) [5, 3, 9] = some 7 := by
  obtain ⟨median, hmedian, hsearch, hmain, hgiven, hgiven_main, -⟩ :=
    default_pattern_size [5, 3, 9] (by decide) [3, 5, 9] (by decide) (by decide) 20
  have h5 : some median = some 5 := hmedian.symm.trans (by decide)
  cases h5
  exact ⟨by decide, hsearch, hmain, hgiven 7, hgiven_main 7 (by decide)⟩

/-- C10, the claim as stated fails: main of threshold_info called with the
pattern size 0 given by the caller does not keep 0 but takes the median 5 of
the lengths 5, 3, 9; and search_parsing in socks mode replaces the given
pattern size 50 by the shape size 20. -/
theorem default_pattern_size_counterexample :
    main_pattern_size (some 0) [5, 3, 9] = some 5 ∧
    search_parsing_pattern_size true (some 50) [5, 3, 9] 20 = some 20 := by
  refine ⟨by decide, by decide⟩

/-- The subtrahend of the lemma value does not wrap for a uint8_t error
budget, whatever the pattern size. -/
theorem kmer_lemma_unfold (pattern_size errors : Nat) (s : shape) (he : errors < 2 ^ 8) :
    kmer_lemma pattern_size errors s
      = (pattern_size + 1) % 2 ^ 64 - (errors + 1) * kmer_size s := by
  have hk := kmer_size_lt s
  have hprod : (errors + 1) * kmer_size s ≤ 256 * 255 :=
    Nat.mul_le_mul (by omega) (by omega)
  have h1 : (errors + 1) % 2 ^ 32 = errors + 1 := Nat.mod_eq_of_lt (by omega)
  have h2 : ((errors + 1) * kmer_size s) % 2 ^ 32 = (errors + 1) * kmer_size s :=
    Nat.mod_eq_of_lt (by omega)
  unfold kmer_lemma
  simp only [h1, h2]
  split <;> omega

/-- The shape of a successful construction of the lemma kind. -/
theorem construct_lemma
    (precompute_correction precompute_threshold : threshold_parameters → List Nat)
    (arguments : threshold_parameters) (hwf : arguments.wf)
    (hnan : arguments.percentage.isnan = true)
    (hwk : arguments.window_size = kmer_size arguments.shape) :
    threshold.construct precompute_correction precompute_threshold arguments
      = some { threshold.default with
          threshold_kind := threshold_kinds.lemma_
          kmer_lemma := kmer_lemma arguments.pattern_size arguments.errors arguments.shape } := by
  have h1 := (kmers_per_window_eq_one_iff _ _ hwf.1).2 hwk
  simp [threshold.construct, hnan, h1]

/-- C15: among lemma dispatchers that differ in the error budget only, the
larger budget (both at most 255) gives the smaller or equal value of get,
for every pattern size and k-mer size; and the value never exceeds
pattern_size + 1 - kmer_size when kmer_size ≤ pattern_size. -/
theorem lemma_monotone_in_errors
    (precompute_correction precompute_threshold : threshold_parameters → List Nat)
    (mul_to_size_t : Nat → double → Option Nat)
    (arguments : threshold_parameters) (hwf : arguments.wf)
    (hnan : arguments.percentage.isnan = true)
    (hwk : arguments.window_size = kmer_size arguments.shape)
    (e2 : Nat) (he : arguments.errors ≤ e2) (he2 : e2 ≤ 255) :
    ∃ d1 d2,
      threshold.construct precompute_correction precompute_threshold arguments = some d1 ∧
      threshold.construct precompute_correction precompute_threshold
        { arguments with errors := e2 } = some d2 ∧
      ∀ x : Nat, ∃ v1 v2 : Nat,
        d1.get mul_to_size_t x = some v1 ∧ d2.get mul_to_size_t x = some v2 ∧
        v2 ≤ v1 ∧
        (kmer_size arguments.shape ≤ arguments.pattern_size →
          v1 ≤ arguments.pattern_size + 1 - kmer_size arguments.shape) := by
  have hwf2 : ({ arguments with errors := e2 } : threshold_parameters).wf :=
    ⟨hwf.1, hwf.2.1, hwf.2.2.1, by show e2 < 2 ^ 8; omega⟩
  refine ⟨_, _, construct_lemma _ _ arguments hwf hnan hwk,
    construct_lemma _ _ { arguments with errors := e2 } hwf2 hnan hwk, fun x => ?_⟩
  refine ⟨_, _, rfl, rfl, ?_, ?_⟩
  · show kmer_lemma arguments.pattern_size e2 arguments.shape
      ≤ kmer_lemma arguments.pattern_size arguments.errors arguments.shape
    rw [kmer_lemma_unfold _ _ _ (by omega : e2 < 2 ^ 8), kmer_lemma_unfold _ _ _ hwf.2.2.2]
    have hmul : (arguments.errors + 1) * kmer_size arguments.shape
        ≤ (e2 + 1) * kmer_size arguments.shape :=
      Nat.mul_le_mul_right _ (by omega)
    omega
  · intro hkp
    show kmer_lemma arguments.pattern_size arguments.errors arguments.shape ≤ _
    rw [kmer_lemma_unfold _ _ _ hwf.2.2.2]
    have hmod : (arguments.pattern_size + 1) % 2 ^ 64 ≤ arguments.pattern_size + 1 :=
      Nat.mod_le _ _
    have hmul : 1 * kmer_size arguments.shape
        ≤ (arguments.errors + 1) * kmer_size arguments.shape :=
      Nat.mul_le_mul_right _ (by omega)
    omega

/-- Pattern 100 and k-mer size 20: the budget 2 gives 41, the budget 3 gives
21, and 41 is at most the 81 k-mers of the pattern. -/
theorem lemma_monotone_in_errors_witness :
    (sample_parameters 20 20 100 2 quiet_NaN).wf ∧
    ∃ d1 d2,
      threshold.construct (fun _ => []) (fun _ => []) (sample_parameters 20 20 100 2 quiet_NaN)
        = some d1 ∧
      threshold.construct (fun _ => []) (fun _ => []) (sample_parameters 20 20 100 3 quiet_NaN)
        = some d2 ∧
      d1.get (fun _ _ => none) 0 = some 41 ∧ d2.get (fun _ _ => none) 0 = some 21 ∧
      ∃ v1 v2 : Nat, d1.get (fun _ _ => none) 0 = some v1 ∧
        d2.get (fun _ _ => none) 0 = some v2 ∧ v2 ≤ v1 ∧ v1 ≤ 81 := by
  obtain ⟨d1, d2, h1, h2, hv⟩ := lemma_monotone_in_errors (fun _ => []) (fun _ => [])
    (fun _ _ => none) (sample_parameters 20 20 100 2 quiet_NaN)
    (by decide) (by decide) (by decide) 3 (by decide) (by decide)
  obtain ⟨v1, v2, hg1, hg2, hle, hub⟩ := hv 0
  have hd1 : some d1 = some _ := h1.symm.trans (construct_lemma _ _ _ (by decide) (by decide) (by decide))
  have hd2 : some d2 = some _ := h2.symm.trans (construct_lemma _ _ _ (by decide) (by decide) (by decide))
  cases hd1
  cases hd2
  exact ⟨by decide, _, _, h1, h2, by decide, by decide, v1, v2, hg1, hg2, hle, hub (by decide)⟩

/-- C13: for sizes with 1 ≤ kmer_size ≤ window_size ≤ pattern_size the minimal
count computed by the constructor is at most the maximal count, that is
(pattern_size - kmer_size + 1) / (window_size - kmer_size + 1) ≤
pattern_size - window_size + 1; every constructed dispatcher stores such an
interval, the clamp of get stays inside it, and the table length
maximal - minimal + 1, also as a size_t, is at least 1. -/
theorem feasible_range_non_empty
    (precompute_correction precompute_threshold : threshold_parameters → List Nat)
    (arguments : threshold_parameters) (hwf : arguments.wf)
    (hk1 : 1 ≤ kmer_size arguments.shape)
    (hkw : kmer_size arguments.shape ≤ arguments.window_size)
    (hwp : arguments.window_size ≤ arguments.pattern_size) :
    minimal_number_of_minimizers arguments.window_size arguments.pattern_size arguments.shape
      ≤ maximal_number_of_minimizers arguments.window_size arguments.pattern_size ∧
    minimal_number_of_minimizers arguments.window_size arguments.pattern_size arguments.shape
      = (arguments.pattern_size - kmer_size arguments.shape + 1)
        / (arguments.window_size - kmer_size arguments.shape + 1) ∧
    maximal_number_of_minimizers arguments.window_size arguments.pattern_size
      = arguments.pattern_size - arguments.window_size + 1 ∧
    (arguments.pattern_size - kmer_size arguments.shape + 1)
        / (arguments.window_size - kmer_size arguments.shape + 1)
      ≤ arguments.pattern_size - arguments.window_size + 1 ∧
    1 ≤ (maximal_number_of_minimizers arguments.window_size arguments.pattern_size + 2 ^ 64
          - minimal_number_of_minimizers arguments.window_size arguments.pattern_size
              arguments.shape + 1) % 2 ^ 64 ∧
    ∀ d, threshold.construct precompute_correction precompute_threshold arguments = some d →
      d.minimal_number_of_minimizers ≤ d.maximal_number_of_minimizers ∧
      1 ≤ d.maximal_number_of_minimizers - d.minimal_number_of_minimizers + 1 ∧
      ∀ x : Nat,
        d.minimal_number_of_minimizers
          ≤ clamp x d.minimal_number_of_minimizers d.maximal_number_of_minimizers ∧
        clamp x d.minimal_number_of_minimizers d.maximal_number_of_minimizers
          ≤ d.maximal_number_of_minimizers := by
  obtain ⟨hw, -, hp, -⟩ := hwf
  obtain ⟨hpw, hmin, hmax⟩ := derived_plain _ _ arguments.shape hw hp hk1 hkw hwp
  have h0 : kmers_per_window arguments.window_size arguments.shape ≠ 0 := by
    rw [hpw]; omega
  have hle := minimal_le_maximal _ _ arguments.shape hw hp hkw hwp h0
  have hlen : 1 ≤ (maximal_number_of_minimizers arguments.window_size arguments.pattern_size
      + 2 ^ 64 - minimal_number_of_minimizers arguments.window_size arguments.pattern_size
          arguments.shape + 1) % 2 ^ 64 := by
    by_cases hw1 : arguments.window_size = 1
    · have hk : kmer_size arguments.shape = 1 := by omega
      have hm : minimal_number_of_minimizers arguments.window_size arguments.pattern_size
          arguments.shape = arguments.pattern_size := by
        rw [hmin, hw1, hk]
        simp
        omega
      rw [hm, hmax, hw1]
      omega
    · rw [hmax] at hle ⊢
      omega
  refine ⟨hle, hmin, hmax, by rw [← hmin, ← hmax]; exact hle, hlen, ?_⟩
  intro d hd
  have hdle : d.minimal_number_of_minimizers ≤ d.maximal_number_of_minimizers := by
    unfold threshold.construct at hd
    cases hnan : arguments.percentage.isnan
    · simp [hnan] at hd
      subst hd
      exact Nat.le_refl 0
    · by_cases h1 : kmers_per_window arguments.window_size arguments.shape = 1
      · simp [hnan, h1] at hd
        subst hd
        exact Nat.le_refl 0
      · simp [hnan, h1, h0] at hd
        subst hd
        exact hle
  exact ⟨hdle, by omega, fun x => clamp_mem x _ _ hdle⟩

/-- Window 5, k-mer size 4, pattern 20: the interval is 8 to 16. -/
theorem feasible_range_non_empty_witness :
    (sample_parameters 5 4 20 1 quiet_NaN).wf ∧
    minimal_number_of_minimizers 5 20 (ungapped 4) = 8 ∧
    maximal_number_of_minimizers 5 20 = 16 ∧
    minimal_number_of_minimizers 5 20 (ungapped 4) ≤ maximal_number_of_minimizers 5 20 :=
  ⟨by decide, by decide, by decide,
    (feasible_range_non_empty (fun _ => []) (fun _ => [])
      (sample_parameters 5 4 20 1 quiet_NaN) (by decide) (by decide) (by decide) (by decide)).1⟩

/-- A series of calls leaves the dispatcher as it was and returns, for each
call, the value of get on the initial dispatcher. -/
theorem call_series_eq (mul_to_size_t : Nat → double → Option Nat) (t : threshold)
    (inputs : List Nat) :
    t.call_series mul_to_size_t inputs = (t, inputs.map (t.get mul_to_size_t)) := by
  induction inputs with
  | nil => rfl
  | cons x rest ih =>
    simp only [threshold.call_series, threshold.call_get, ih, List.map_cons]

/-- C12: for every dispatcher, of whichever kind, and every input x, a call
get(x) leaves every field of the dispatcher unchanged, a second call get(x)
on the dispatcher so left returns the value of the first, and in any series
of calls two calls with the same input return the same value. -/
theorem get_idempotent (mul_to_size_t : Nat → double → Option Nat) (t : threshold) (x : Nat)
    (inputs : List Nat) :
    (t.call_get mul_to_size_t x).1.threshold_kind = t.threshold_kind ∧
    (t.call_get mul_to_size_t x).1.precomp_correction = t.precomp_correction ∧
    (t.call_get mul_to_size_t x).1.precomp_thresholds = t.precomp_thresholds ∧
    (t.call_get mul_to_size_t x).1.kmer_lemma = t.kmer_lemma ∧
    (t.call_get mul_to_size_t x).1.minimal_number_of_minimizers
      = t.minimal_number_of_minimizers ∧
    (t.call_get mul_to_size_t x).1.maximal_number_of_minimizers
      = t.maximal_number_of_minimizers ∧
    (t.call_get mul_to_size_t x).1.threshold_percentage = t.threshold_percentage ∧
    ((t.call_get mul_to_size_t x).1.call_get mul_to_size_t x).2
      = (t.call_get mul_to_size_t x).2 ∧
    (t.call_series mul_to_size_t inputs).1 = t ∧
    ∀ i j : Nat, ∀ a b : Nat, inputs[i]? = some a → inputs[j]? = some b → a = b →
      (t.call_series mul_to_size_t inputs).2[i]? = (t.call_series mul_to_size_t inputs).2[j]? := by
  refine ⟨rfl, rfl, rfl, rfl, rfl, rfl, rfl, rfl, ?_, ?_⟩
  · rw [call_series_eq]
  · intro i j a b hi hj hab
    rw [call_series_eq]
    simp only [List.getElem?_map, hi, hj, hab]

/-- The calls get(10), get(3), get(10) on the sample dispatcher: the first and
the third return the same value 5, and the dispatcher is unchanged. -/
theorem get_idempotent_witness :
    ∃ d, threshold.construct (fun _ => sample_correction) (fun _ => sample_thresholds)
        (sample_parameters 5 4 20 1 quiet_NaN) = some d ∧
      d.call_series (fun _ _ => none) [10, 3, 10] = (d, [some 5, some 4, some 5]) ∧
      (d.call_series (fun _ _ => none) [10, 3, 10]).2[0]?
        = (d.call_series (fun _ _ => none) [10, 3, 10]).2[2]? := by
  refine ⟨_, rfl, by decide, ?_⟩
  exact (get_idempotent (fun _ _ => none) _ 10 [10, 3, 10]).2.2.2.2.2.2.2.2.2 0 2 10 10
    (by decide) (by decide) rfl

/-- The worker loop keeps the length of the frequency vector. -/
theorem worker_length (records : List Nat) :
    ∀ frequencies f : List Nat, worker frequencies records = some f →
      f.length = frequencies.length := by
  induction records with
  | nil =>
    intro frequencies f h
    simp only [worker, Option.some.injEq] at h
    rw [← h]
  | cons c rest ih =>
    intro frequencies f h
    unfold worker at h
    cases hc : frequencies[c]? with
    | none => simp [hc] at h
    | some reads =>
      simp only [hc] at h
      rw [ih _ _ h, List.length_set]

/-- Every row written by the output loop belongs to a value of the loop
variable and holds the two table entries at that value minus minimal, with
their size_t sum. -/
theorem report_rows_mem (frequencies pt pc : List Nat) (minimal : Nat) (l : List Nat) :
    ∀ rows : List report_row, report_rows frequencies pt pc minimal l = some rows →
      ∀ r ∈ rows, r.x ∈ l ∧ pt[r.x - minimal]? = some r.t_p ∧ pc[r.x - minimal]? = some r.t_c ∧
        r.t = (r.t_p + r.t_c) % 2 ^ 64 := by
  induction l with
  | nil =>
    intro rows h r hr
    simp only [report_rows, Option.some.injEq] at h
    subst h
    cases hr
  | cons i rest ih =>
    intro rows h r hr
    unfold report_rows at h
    cases hf : frequencies[i]? with
    | none => simp [hf] at h
    | some v =>
      cases v with
      | zero =>
        simp only [hf] at h
        obtain ⟨h1, h2⟩ := ih rows h r hr
        exact ⟨List.mem_cons_of_mem _ h1, h2⟩
      | succ reads =>
        simp only [hf] at h
        cases ha : pt[i - minimal]? with
        | none => simp [ha] at h
        | some a =>
          cases hb : pc[i - minimal]? with
          | none => simp [ha, hb] at h
          | some b =>
            simp only [ha, hb] at h
            cases hrest : report_rows frequencies pt pc minimal rest with
            | none => simp [hrest] at h
            | some rows' =>
              simp only [hrest, Option.map_some', Option.some.injEq] at h
              subst h
              rcases List.mem_cons.1 hr with hhead | htail
              · subst hhead
                exact ⟨List.mem_cons_self _ _, ha, hb, rfl⟩
              · obtain ⟨h1, h2⟩ := ih rows' hrest r htail
                exact ⟨List.mem_cons_of_mem _ h1, h2⟩

/-- A value inside the interval is its own clamp. -/
theorem clamp_of_mem (v lo hi : Nat) (h1 : lo ≤ v) (h2 : v ≤ hi) : clamp v lo hi = v := by
  unfold clamp
  omega

/-- C14: with the percentage absent and kmers_per_window not 1, every row that
threshold_info writes belongs to a count x between the minimal and the maximal
count of the dispatcher constructed from the same parameters, the index
x - minimal is the one get computes, and the total threshold t(x) of the row
is the value get(x) returns. -/
theorem report_agrees_with_dispatcher
    (precompute_correction precompute_threshold : threshold_parameters → List Nat)
    (mul_to_size_t : Nat → double → Option Nat)
    (arguments : search_arguments) (minimiser_counts : List Nat) (rows : List report_row)
    (hnan : arguments.make_threshold_parameters.percentage.isnan = true)
    (hkpw : kmers_per_window arguments.window_size arguments.shape ≠ 1)
    (hrows : threshold_info precompute_correction precompute_threshold arguments
      minimiser_counts = some rows) :
    ∃ d, threshold.construct precompute_correction precompute_threshold
        arguments.make_threshold_parameters = some d ∧
      d.threshold_kind = threshold_kinds.probabilistic ∧
      d.minimal_number_of_minimizers
        = minimal_number_of_minimizers arguments.window_size arguments.pattern_size
            arguments.shape ∧
      d.maximal_number_of_minimizers
        = maximal_number_of_minimizers arguments.window_size arguments.pattern_size ∧
      ∀ r ∈ rows,
        d.minimal_number_of_minimizers ≤ r.x ∧ r.x ≤ d.maximal_number_of_minimizers ∧
        d.index r.x = r.x - d.minimal_number_of_minimizers ∧
        d.get mul_to_size_t r.x = some r.t := by
  have h0 : kmers_per_window arguments.window_size arguments.shape ≠ 0 := by
    intro h
    simp [threshold_info, h] at hrows
  have hd : threshold.construct precompute_correction precompute_threshold
      arguments.make_threshold_parameters
      = some { threshold.default with
          threshold_kind := threshold_kinds.probabilistic
          minimal_number_of_minimizers :=
            minimal_number_of_minimizers arguments.window_size arguments.pattern_size
              arguments.shape
          maximal_number_of_minimizers :=
            maximal_number_of_minimizers arguments.window_size arguments.pattern_size
          precomp_correction := precompute_correction arguments.make_threshold_parameters
          precomp_thresholds := precompute_threshold arguments.make_threshold_parameters } := by
    have h0' : kmers_per_window arguments.make_threshold_parameters.window_size
        arguments.make_threshold_parameters.shape ≠ 0 := h0
    have h1' : kmers_per_window arguments.make_threshold_parameters.window_size
        arguments.make_threshold_parameters.shape ≠ 1 := hkpw
    simp only [threshold.construct, hnan, h0', h1', Bool.not_true, Bool.false_eq_true,
      if_false]
    rfl
  refine ⟨_, hd, rfl, rfl, rfl, ?_⟩
  simp only
  generalize hmin : minimal_number_of_minimizers arguments.window_size arguments.pattern_size
    arguments.shape = minimal at *
  generalize hmax : maximal_number_of_minimizers arguments.window_size arguments.pattern_size
    = maximal at *
  generalize hpt : precompute_threshold arguments.make_threshold_parameters = pt at *
  generalize hpc : precompute_correction arguments.make_threshold_parameters = pc at *
  have hmaxlt : maximal < 2 ^ 64 := by
    rw [← hmax]
    exact Nat.mod_lt _ (by norm_num)
  have hsize : (maximal + 1) % 2 ^ 64 ≤ maximal + 1 := Nat.mod_le _ _
  cases hw : worker (List.replicate ((maximal + 1) % 2 ^ 64) 0) minimiser_counts with
  | none =>
    have hinfo : threshold_info precompute_correction precompute_threshold arguments
        minimiser_counts = none := by
      simp only [threshold_info, h0, if_false, hmin, hmax, hpt, hpc, hw]
    rw [hinfo] at hrows
    cases hrows
  | some f =>
    have hinfo : threshold_info precompute_correction precompute_threshold arguments
        minimiser_counts
        = if f.isEmpty then some []
          else report_rows (f.take (last_non_zero f (f.length - 1) + 1)) pt pc minimal
            (List.range' minimal (last_non_zero f (f.length - 1) + 1 - minimal)) := by
      simp only [threshold_info, h0, if_false, hmin, hmax, hpt, hpc, hw]
    rw [hinfo] at hrows
    have hflen : f.length = (maximal + 1) % 2 ^ 64 := by
      rw [worker_length _ _ _ hw, List.length_replicate]
    by_cases hempty : f.isEmpty = true
    · simp only [hempty, if_true, Option.some.injEq] at hrows
      subst hrows
      intro r hr
      cases hr
    · simp only [hempty, Bool.false_eq_true, if_false] at hrows
      have hpos : 0 < f.length := by
        cases f with
        | nil => exact absurd rfl hempty
        | cons a as => simp
      have hlast := (last_non_zero_spec f (f.length - 1)).1
      intro r hr
      obtain ⟨hmem, ha, hb, ht⟩ := report_rows_mem _ _ _ _ _ rows hrows r hr
      rw [List.mem_range'_1] at hmem
      have hx1 : minimal ≤ r.x := hmem.1
      have hx2 : r.x ≤ maximal := by omega
      have hidx : ({ threshold.default with
          threshold_kind := threshold_kinds.probabilistic
          minimal_number_of_minimizers := minimal
          maximal_number_of_minimizers := maximal
          precomp_correction := pc
          precomp_thresholds := pt } : threshold).index r.x = r.x - minimal := by
        simp only [threshold.index, clamp_of_mem _ _ _ hx1 hx2]
        omega
      refine ⟨hx1, hx2, hidx, ?_⟩
      simp only [threshold.get, Nat.not_lt.2 (le_trans hx1 hx2), if_false, hidx, ha, hb, ht]

/-- The row of the count 10 in the sample report carries the total threshold 5,
the value the sample dispatcher returns for 10. -/
theorem report_agrees_with_dispatcher_witness :
    threshold_info (fun _ => sample_correction) (fun _ => sample_thresholds)
      (sample_arguments 5 4 20 1) [3, 10, 10] = some [⟨10, 2, 5, 4, 1⟩] ∧
    ∃ d, threshold.construct (fun _ => sample_correction) (fun _ => sample_thresholds)
        (sample_arguments 5 4 20 1).make_threshold_parameters = some d ∧
      d.get (fun _ _ => none) 10 = some 5 := by
  obtain ⟨d, hd, -, -, -, hr⟩ := report_agrees_with_dispatcher (fun _ => sample_correction)
    (fun _ => sample_thresholds) (fun _ _ => none) (sample_arguments 5 4 20 1) [3, 10, 10]
    [⟨10, 2, 5, 4, 1⟩] (by decide) (by decide) (by decide)
  exact ⟨by decide, d, hd, (hr ⟨10, 2, 5, 4, 1⟩ (List.mem_singleton.2 rfl)).2.2.2⟩

/-- Reading further digits never lowers the value read so far, and doubles it
at every digit. -/
theorem foldl_digits_ge (digits : List Char) :
    ∀ value : Nat, value * 2 ^ digits.length
      ≤ digits.foldl (fun value c => 2 * value + (if c = '1' then 1 else 0)) value := by
  induction digits with
  | nil => intro value; simp
  | cons c rest ih =>
    intro value
    simp only [List.foldl_cons, List.length_cons]
    refine le_trans ?_ (ih _)
    rw [pow_succ]
    have : value * (2 ^ rest.length * 2) = (2 * value) * 2 ^ rest.length := by ring
    rw [this]
    exact Nat.mul_le_mul_right _ (by omega)

/-- A run of digits that starts with 1 writes a number of exactly as many
significant bits as it has digits. -/
theorem binary_value_ge (rest : List Char) :
    2 ^ rest.length ≤ binary_value ('1' :: rest) := by
  have h := foldl_digits_ge rest 1
  simpa [binary_value] using h

/-- No position is produced for the value 0. -/
theorem bits_of_zero (capacity : Nat) (positions : List Bool) :
    bits_of capacity 0 positions = positions := by
  cases capacity <;> simp [bits_of]

/-- The positions of the number written by a run of binary digits without a
leading 0 are the digits of the run. -/
theorem bits_of_binary_value (digits : List Char) :
    (∀ c ∈ digits, c = '0' ∨ c = '1') → (∀ c ∈ digits.head?, c = '1') →
    ∀ capacity : Nat, digits.length ≤ capacity → ∀ positions : List Bool,
      bits_of capacity (binary_value digits) positions
        = digits.map (fun c => decide (c = '1')) ++ positions := by
  induction digits using List.reverseRecOn with
  | nil =>
    intro _ _ capacity _ positions
    exact bits_of_zero capacity positions
  | append_singleton front c ih =>
    intro hall hhead capacity hcap positions
    have hval : binary_value (front ++ [c])
        = 2 * binary_value front + (if c = '1' then 1 else 0) := by
      simp [binary_value, List.foldl_append]
    have hpos : 0 < binary_value (front ++ [c]) := by
      cases front with
      | nil =>
        have hc : c = '1' := hhead c (by simp)
        subst hc
        simp [binary_value]
      | cons a rest =>
        have ha : a = '1' := hhead a (by simp)
        subst ha
        have h := binary_value_ge (rest ++ [c])
        have h2 : 0 < 2 ^ (rest ++ [c]).length := Nat.pos_pow_of_pos _ (by norm_num)
        exact lt_of_lt_of_le h2 h
    rw [List.length_append, List.length_singleton] at hcap
    obtain ⟨capacity, rfl⟩ : ∃ n, capacity = n + 1 := ⟨capacity - 1, by omega⟩
    have hfront := ih (fun c' hc' => hall c' (List.mem_append_left _ hc'))
      (fun c' hc' => by
        cases front with
        | nil => simp at hc'
        | cons a rest => exact hhead c' (by simpa using hc'))
      capacity (by omega)
    unfold bits_of
    rw [if_neg (by omega), hval]
    have hdiv : (2 * binary_value front + (if c = '1' then 1 else 0)) / 2 = binary_value front := by
      split <;> omega
    have hmod : ((2 * binary_value front + (if c = '1' then 1 else 0)) % 2 == 1)
        = decide (c = '1') := by
      by_cases hc : c = '1'
      · simp [hc, Nat.add_mod]
      · simp [hc]
    rw [hdiv, hmod, hfront]
    simp

/-- A run that consists of binary digits only is read as a whole. -/
theorem takeWhile_binary (digits : List Char) (hall : ∀ c ∈ digits, c = '0' ∨ c = '1') :
    digits.takeWhile (fun c => decide (c = '0' ∨ c = '1')) = digits := by
  rw [List.takeWhile_eq_self_iff]
  intro c hc
  simpa using hall c hc

/-- C11 (amended): in main of threshold_info, when both a shape and a k-mer
size are given the run ends with the argument error "You cannot set both shape
and k-mer arguments." and threshold_info is not reached; when only the shape
is given, as a string of binary digits that writes a number below 2^58, the
shape is the binary literal of that number, whose positions are the digits of
the string when it has no leading 0; when no shape is given the shape is the
ungapped shape of `arguments.shape_size` and the shape string is that many
characters 1. -/
theorem main_shape_exclusive
    (precompute_correction precompute_threshold : threshold_parameters → List Nat)
    (arguments : search_arguments) (pattern_option : Option Nat)
    (directory_error : Option String) (sequence_lengths minimiser_counts : List Nat) :
    (∀ shape_string : String,
      main precompute_correction precompute_threshold arguments (some shape_string) true
        pattern_option directory_error sequence_lengths minimiser_counts
      = Except.error
          (main_error.argument_parser_error "You cannot set both shape and k-mer arguments.")) ∧
    (∀ shape_string : String,
      (∀ c ∈ shape_string.data, c = '0' ∨ c = '1') →
      binary_value shape_string.data < 2 ^ 58 →
      from_chars shape_string = binary_value shape_string.data ∧
      main_shape (some shape_string) false arguments.shape_size
        = Except.ok (⟨bits_of 58 (binary_value shape_string.data) []⟩, shape_string) ∧
      ((∀ c ∈ shape_string.data.head?, c = '1') →
        main_shape (some shape_string) false arguments.shape_size
          = Except.ok (⟨shape_string.data.map (fun c => decide (c = '1'))⟩, shape_string))) ∧
    (∀ kmer_is_set : Bool,
      main_shape none kmer_is_set arguments.shape_size
        = Except.ok (ungapped arguments.shape_size,
            String.mk (List.replicate arguments.shape_size '1'))) := by
  refine ⟨fun shape_string => rfl, ?_, fun kmer_is_set => rfl⟩
  intro shape_string hall hlt
  have hfrom : from_chars shape_string = binary_value shape_string.data := by
    unfold from_chars
    simp only [takeWhile_binary _ hall]
    rw [if_pos (by omega)]
  have hshape : main_shape (some shape_string) false arguments.shape_size
      = Except.ok (⟨bits_of 58 (binary_value shape_string.data) []⟩, shape_string) := by
    simp only [main_shape, hfrom, bin_literal, hlt, if_true, Bool.false_eq_true, if_false]
  refine ⟨hfrom, hshape, fun hhead => ?_⟩
  rw [hshape]
  have hlen : shape_string.data.length ≤ 58 := by
    cases hdata : shape_string.data with
    | nil => simp
    | cons a rest =>
      rw [hdata] at hhead hlt
      have ha : a = '1' := hhead a (by simp)
      subst ha
      have hge := binary_value_ge rest
      have hpow : 2 ^ rest.length < 2 ^ 58 := lt_of_le_of_lt hge hlt
      have := (Nat.pow_lt_pow_iff_right (by norm_num : 1 < 2)).1 hpow
      simp only [List.length_cons]
      omega
  rw [bits_of_binary_value _ hall hhead 58 hlen []]
  simp

/-- The shape string 10101 gives the shape 10101, and with no shape the
k-mer size 4 gives the ungapped shape 1111 with the string 1111; giving both
is an argument error. -/
theorem main_shape_exclusive_witness :
    main_shape (some "10101") false 20
      = Except.ok (⟨[true, false, true, false, true]⟩, "10101") ∧
    main_shape none true 4 = Except.ok (⟨[true, true, true, true]⟩, "1111") ∧
    main (fun _ => sample_correction) (fun _ => sample_thresholds) (sample_arguments 5 4 20 1)
        (some "10101") true none none [20] [10]
      = Except.error
          (main_error.argument_parser_error "You cannot set both shape and k-mer arguments.") := by
  obtain ⟨hboth, hshape, hkmer⟩ := main_shape_exclusive (fun _ => sample_correction)
    (fun _ => sample_thresholds) (sample_arguments 5 4 20 1) none none [20] [10]
  refine ⟨?_, ?_, hboth "10101"⟩
  · exact ((hshape "10101" (by decide) (by decide)).2.2 (by decide)).trans rfl
  · exact (hkmer true).trans rfl

/-- C11, the claim as stated fails: a shape string of 65 digits 1 is accepted,
the discarded from_chars leaves tmp at 0, and the shape is the binary literal
of 0, the same shape as for the shape string 0, and not the binary literal
of the number 2^65 - 1 that the string writes. -/
theorem main_shape_exclusive_counterexample :
    (∀ c ∈ (String.mk (List.replicate 65 '1')).data, c = '0' ∨ c = '1') ∧
    binary_value (String.mk (List.replicate 65 '1')).data = 2 ^ 65 - 1 ∧
    from_chars (String.mk (List.replicate 65 '1')) = 0 ∧
    main_shape (some (String.mk (List.replicate 65 '1'))) false 20
      = Except.ok (⟨[]⟩, String.mk (List.replicate 65 '1')) ∧
    main_shape (some "0") false 20 = Except.ok (⟨[]⟩, "0") := by
  refine ⟨by decide, by decide, by decide, rfl, rfl⟩

/-- A number below `2 ^ k` has at most k significant bits. -/
theorem significant_bits_le (bits : Nat) :
    ∀ n k : Nat, n < 2 ^ k → significant_bits bits n ≤ k := by
  induction bits with
  | zero => intro n k _; simp [significant_bits]
  | succ bits ih =>
    intro n k h
    unfold significant_bits
    split
    · omega
    · rename_i hn
      cases k with
      | zero => simp at h; omega
      | succ k =>
        have h2 : n / 2 < 2 ^ k := by
          rw [pow_succ] at h
          omega
        have := ih (n / 2) k h2
        omega

/-- A number of at most 53 bits is not rounded. -/
theorem round_to_53_small (n : Nat) (h : n < 2 ^ 53) : round_to_53 n = (n, 0) := by
  unfold round_to_53
  rw [if_pos h]

/-- The rounded number keeps the leading bits of the number or adds one in the
last place kept, keeps them when the bits dropped are all zero, and drops at
most k bits of a number below `2 ^ (53 + k)`. -/
theorem round_to_53_cases (n : Nat) :
    ((round_to_53 n).1 = n / 2 ^ (round_to_53 n).2 ∨
      (round_to_53 n).1 = n / 2 ^ (round_to_53 n).2 + 1) ∧
    (n % 2 ^ (round_to_53 n).2 = 0 → (round_to_53 n).1 = n / 2 ^ (round_to_53 n).2) ∧
    ∀ k : Nat, n < 2 ^ (53 + k) → (round_to_53 n).2 ≤ k := by
  unfold round_to_53
  split
  · simp
  · rename_i hn
    have hshift : ∀ k : Nat, n < 2 ^ (53 + k) → significant_bits 128 n - 53 ≤ k := by
      intro k hk
      have := significant_bits_le 128 n (53 + k) hk
      omega
    have hhalf : 0 < 2 ^ (significant_bits 128 n - 53 - 1) := Nat.pos_pow_of_pos _ (by norm_num)
    simp only
    split
    · rename_i hup
      refine ⟨Or.inr rfl, ?_, hshift⟩
      intro hzero
      simp only at hzero
      rcases hup with h | h
      · omega
      · omega
    · exact ⟨Or.inl rfl, fun _ => rfl, hshift⟩

/-- The integer part of a count times a scaled number, in natural numbers. -/
theorem floor_mul_scaled (x q e : Nat) :
    ⌊(x : ℚ) * scaled q e⌋₊ = x * q * 2 ^ (e - 1074) / 2 ^ (1074 - e) := by
  unfold scaled
  rw [← mul_div_assoc, ← Nat.cast_mul, Nat.floor_div_eq_div, Nat.mul_assoc]

/-- The integer part of a scaled number, in natural numbers. -/
theorem floor_scaled (q e : Nat) :
    ⌊scaled q e⌋₊ = q * 2 ^ (e - 1074) / 2 ^ (1074 - e) := by
  unfold scaled
  rw [Nat.floor_div_eq_div]
/-- The truncated binary64 product of a count below 2^53 and a magnitude of at
most 1, against the integer part of the exact product: it is that integer
part or one more, and that integer part when no bit is rounded away. -/
theorem truncated_product_bounds (x m sc : Nat) (hx : x < 2 ^ 53) (hsc : sc ≤ 1074)
    (hm : m ≤ 2 ^ (1074 - sc)) :
    x * m * 2 ^ (sc - 1074) / 2 ^ (1074 - sc)
      ≤ (round_to_53 (x * m)).1 * 2 ^ ((round_to_53 (x * m)).2 + sc - 1074)
        / 2 ^ (1074 - ((round_to_53 (x * m)).2 + sc)) ∧
    (round_to_53 (x * m)).1 * 2 ^ ((round_to_53 (x * m)).2 + sc - 1074)
        / 2 ^ (1074 - ((round_to_53 (x * m)).2 + sc))
      ≤ x * m * 2 ^ (sc - 1074) / 2 ^ (1074 - sc) + 1 ∧
    ((x * m) % 2 ^ (round_to_53 (x * m)).2 = 0 →
      (round_to_53 (x * m)).1 * 2 ^ ((round_to_53 (x * m)).2 + sc - 1074)
          / 2 ^ (1074 - ((round_to_53 (x * m)).2 + sc))
        = x * m * 2 ^ (sc - 1074) / 2 ^ (1074 - sc)) ∧
    x * m * 2 ^ (sc - 1074) / 2 ^ (1074 - sc) ≤ x := by
  have hpow : 0 < 2 ^ (1074 - sc) := Nat.pos_pow_of_pos _ (by norm_num)
  have hlt : x * m < 2 ^ (53 + (1074 - sc)) := by
    rw [pow_add]
    calc x * m ≤ x * 2 ^ (1074 - sc) := Nat.mul_le_mul_left _ hm
      _ < 2 ^ 53 * 2 ^ (1074 - sc) := Nat.mul_lt_mul_of_pos_right hx hpow
  obtain ⟨hcase, hexact, hshift⟩ := round_to_53_cases (x * m)
  have hs := hshift (1074 - sc) hlt
  generalize (round_to_53 (x * m)).1 = q' at hcase hexact ⊢
  generalize (round_to_53 (x * m)).2 = s at hcase hexact hs ⊢
  have e1 : s + sc - 1074 = 0 := by omega
  have e2 : 1074 - (s + sc) = 1074 - sc - s := by omega
  have e3 : sc - 1074 = 0 := by omega
  have e4 : 2 ^ (1074 - sc) = 2 ^ s * 2 ^ (1074 - sc - s) := by
    have hsum : s + (1074 - sc - s) = 1074 - sc := by omega
    rw [← pow_add, hsum]
  have hP : 0 < 2 ^ (1074 - sc - s) := Nat.pos_pow_of_pos _ (by norm_num)
  have hte : x * m * 2 ^ (sc - 1074) / 2 ^ (1074 - sc)
      = x * m / 2 ^ s / 2 ^ (1074 - sc - s) := by
    rw [e3, pow_zero, Nat.mul_one, e4, Nat.div_div_eq_div_mul]
  have hv : q' * 2 ^ (s + sc - 1074) / 2 ^ (1074 - (s + sc)) = q' / 2 ^ (1074 - sc - s) := by
    rw [e1, e2, pow_zero, Nat.mul_one]
  have hx' : x * m / 2 ^ s / 2 ^ (1074 - sc - s) ≤ x := by
    rw [← hte, e3, pow_zero, Nat.mul_one]
    apply Nat.div_le_of_le_mul
    calc x * m ≤ x * 2 ^ (1074 - sc) := Nat.mul_le_mul_left _ hm
      _ = 2 ^ (1074 - sc) * x := Nat.mul_comm _ _
  rw [hte, hv]
  generalize 2 ^ (1074 - sc - s) = P at hP hx' ⊢
  generalize x * m / 2 ^ s = q at hcase hexact hx' ⊢
  have hstep : (q + 1) / P ≤ q / P + 1 := by
    calc (q + 1) / P ≤ (q + P) / P := Nat.div_le_div_right (by omega)
      _ = q / P + 1 := Nat.add_div_right q hP
  have hmono : q / P ≤ (q + 1) / P := Nat.div_le_div_right (by omega)
  refine ⟨?_, ?_, ?_, hx'⟩
  · rcases hcase with h | h <;> rw [h]
    exact hmono
  · rcases hcase with h | h <;> rw [h]
    · omega
    · exact hstep
  · intro hz
    rw [hexact hz]
/-- A finite double with the sign clear that is at most 1 by its fields: its
last place is at most 1074 places above the offset and its significand is at
most the reciprocal of that place. -/
theorem fraction_fields (f : double) (hman : f.mantissa < 2 ^ 52)
    (hle : f.exponent ≤ 1022 ∨ (f.exponent = 1023 ∧ f.mantissa = 0)) :
    f.scale ≤ 1074 ∧ f.significand ≤ 2 ^ (1074 - f.scale) := by
  unfold double.scale double.significand
  by_cases h0 : f.exponent = 0
  · rw [if_pos h0, if_pos h0]
    refine ⟨by omega, ?_⟩
    have key : ∀ k : Nat, 52 ≤ k → f.mantissa ≤ 2 ^ k := fun k hk =>
      Nat.le_trans (Nat.le_of_lt hman) (Nat.pow_le_pow_right Nat.zero_lt_two hk)
    exact key _ (by omega)
  · rw [if_neg h0, if_neg h0]
    rcases hle with h | ⟨h, hz⟩
    · refine ⟨by omega, ?_⟩
      have : 2 ^ 53 ≤ 2 ^ (1074 - (f.exponent - 1)) :=
        Nat.pow_le_pow_right (by norm_num) (by omega)
      omega
    · refine ⟨by omega, ?_⟩
      rw [h, hz]
      exact Nat.le_refl _

/-- C5 (amended): for a percentage dispatcher whose fraction f is a finite
double with the sign clear, and every size_t input x, get(x) returns the
integer part of the binary64 product x * f (the count converted to a double,
the exact product of the two doubles rounded to nearest with ties to even)
when that integer part is a size_t, and is undefined otherwise. For f ≤ 1 and
x below 2^53 a value is returned; it is floor(x * f) or floor(x * f) + 1 for
the stored f, and it is floor(x * f) when no bit of the exact product is
rounded away. -/
theorem percentage_policy_value (t : threshold)
    (hkind : t.threshold_kind = threshold_kinds.percentage)
    (hsign : t.threshold_percentage.sign = false)
    (hfin : t.threshold_percentage.exponent < 2047)
    (x : Nat) (hx64 : x < 2 ^ 64) :
    (t.get binary64_mul_to_size_t x
      = if ⌊scaled (binary64_product x t.threshold_percentage).1
              (binary64_product x t.threshold_percentage).2⌋₊ < 2 ^ 64
        then some ⌊scaled (binary64_product x t.threshold_percentage).1
              (binary64_product x t.threshold_percentage).2⌋₊
        else none) ∧
    (x < 2 ^ 53 → t.threshold_percentage.mantissa < 2 ^ 52 →
      (t.threshold_percentage.exponent ≤ 1022 ∨
        (t.threshold_percentage.exponent = 1023 ∧ t.threshold_percentage.mantissa = 0)) →
      t.threshold_percentage.magnitude ≤ 1 ∧
      ∃ v : Nat, t.get binary64_mul_to_size_t x = some v ∧
        v = ⌊scaled (binary64_product x t.threshold_percentage).1
              (binary64_product x t.threshold_percentage).2⌋₊ ∧
        ⌊(x : ℚ) * t.threshold_percentage.magnitude⌋₊ ≤ v ∧
        v ≤ ⌊(x : ℚ) * t.threshold_percentage.magnitude⌋₊ + 1 ∧
        ((x * t.threshold_percentage.significand)
            % 2 ^ (round_to_53 (x * t.threshold_percentage.significand)).2 = 0 →
          v = ⌊(x : ℚ) * t.threshold_percentage.magnitude⌋₊)) := by
  generalize hf : t.threshold_percentage = f at *
  have hfin2 : ¬ 2047 ≤ f.exponent := by omega
  refine ⟨?_, ?_⟩
  · rw [floor_scaled]
    simp only [threshold.get, hkind, hf, binary64_mul_to_size_t, hfin2, if_false, hsign,
      Bool.false_eq_true, false_and]
    by_cases hrange : 2 ^ 64 ≤ (binary64_product x f).1 * 2 ^ ((binary64_product x f).2 - 1074)
        / 2 ^ (1074 - (binary64_product x f).2)
    · rw [if_pos hrange, if_neg (by omega)]
    · rw [if_neg hrange, if_pos (by omega)]
  · intro hx hman hle
    obtain ⟨hsc, hm⟩ := fraction_fields f hman hle
    have hprod : binary64_product x f
        = ((round_to_53 (x * f.significand)).1,
            (round_to_53 (x * f.significand)).2 + f.scale) := by
      simp only [binary64_product, round_to_53_small x hx, pow_zero, Nat.mul_one]
    obtain ⟨hlo, hhi, hexact, hxle⟩ :=
      truncated_product_bounds x f.significand f.scale hx hsc hm
    refine ⟨?_, ?_⟩
    · unfold double.magnitude scaled
      have e3 : f.scale - 1074 = 0 := by omega
      rw [e3, pow_zero, Nat.mul_one]
      have hpos : (0 : ℚ) < ((2 ^ (1074 - f.scale) : Nat) : ℚ) := by
        exact_mod_cast Nat.pos_pow_of_pos _ (by norm_num)
      rw [div_le_one hpos]
      exact_mod_cast hm
    · refine ⟨(round_to_53 (x * f.significand)).1
          * 2 ^ ((round_to_53 (x * f.significand)).2 + f.scale - 1074)
          / 2 ^ (1074 - ((round_to_53 (x * f.significand)).2 + f.scale)), ?_, ?_, ?_, ?_, ?_⟩
      · have hrange : ¬ 2 ^ 64 ≤ (round_to_53 (x * f.significand)).1
            * 2 ^ ((round_to_53 (x * f.significand)).2 + f.scale - 1074)
            / 2 ^ (1074 - ((round_to_53 (x * f.significand)).2 + f.scale)) := by omega
        simp only [threshold.get, hkind, hf, binary64_mul_to_size_t, hfin2, if_false, hprod,
          hrange, hsign, Bool.false_eq_true, false_and]
      · rw [hprod, floor_scaled]
      · unfold double.magnitude
        rw [floor_mul_scaled]
        exact hlo
      · unfold double.magnitude
        rw [floor_mul_scaled]
        exact hhi
      · intro hz
        unfold double.magnitude
        rw [floor_mul_scaled]
        exact hexact hz

/-- The fraction 0.7 and the input 10: get returns 7, which is one more than
the integer part 6 of the exact product of 10 and the stored double. -/
theorem percentage_policy_value_witness :
    ∃ d, threshold.construct (fun _ => []) (fun _ => []) (sample_parameters 20 20 100 2 double_0_7)
        = some d ∧
      d.get binary64_mul_to_size_t 10 = some 7 ∧
      ∃ v : Nat, d.get binary64_mul_to_size_t 10 = some v ∧
        ⌊((10 : Nat) : ℚ) * d.threshold_percentage.magnitude⌋₊ ≤ v ∧
        v ≤ ⌊((10 : Nat) : ℚ) * d.threshold_percentage.magnitude⌋₊ + 1 := by
  refine ⟨_, rfl, by decide, ?_⟩
  obtain ⟨-, v, hget, -, hlo, hhi, -⟩ := (percentage_policy_value
    { threshold.default with
      threshold_kind := threshold_kinds.percentage
      threshold_percentage := double_0_7 } rfl rfl (by decide) 10 (by decide)).2
    (by decide) (by decide) (by decide)
  exact ⟨v, hget, hlo, hhi⟩

/-- C5, the claim as stated fails. With the fraction 0.7, stored as the double
0x3FE6666666666666, get(10) is 7 while the integer part of 10 times the stored
fraction is 6: the exact product lies below 7 and is rounded up to 7.0. With
the fraction 0.29, stored as 0x3FD28F5C28F5C28F, get(100) is 28 while
floor(100 * 0.29) is 29. -/
theorem percentage_policy_value_counterexample :
    (∃ d, threshold.construct (fun _ => []) (fun _ => [])
        (sample_parameters 20 20 100 2 double_0_7) = some d ∧
      d.threshold_kind = threshold_kinds.percentage ∧
      d.threshold_percentage = double_0_7 ∧
      d.get binary64_mul_to_size_t 10 = some 7 ∧
      ⌊((10 : Nat) : ℚ) * double_0_7.magnitude⌋₊ = 6) ∧
    (∃ d, threshold.construct (fun _ => []) (fun _ => [])
        (sample_parameters 20 20 100 2 double_0_29) = some d ∧
      d.threshold_kind = threshold_kinds.percentage ∧
      d.threshold_percentage = double_0_29 ∧
      d.get binary64_mul_to_size_t 100 = some 28 ∧
      ⌊(100 : ℚ) * (29 / 100)⌋₊ = 29) := by
  refine ⟨⟨_, rfl, rfl, rfl, by decide, ?_⟩, ⟨_, rfl, rfl, rfl, by decide, by norm_num⟩⟩
  unfold double.magnitude
  rw [floor_mul_scaled]
  decide

end Raptor
